import Mathlib

/-!
Verification of the Miro maze-explorer (Miro_Task2_Offline.py) against its
natural-language specification.  The Python source is shallowly embedded:
the mutable handler state (knowledge grid and pose) is passed explicitly,
Python None / int / string slot values become the Slot inductive, and the
module-level scan-then-move loop becomes a step function on MiroState.
Out-of-range list indices do not occur in any verified run (the maze is
enclosed by the boundary wall ring); the embedding returns or writes a
default there, and every theorem that could touch such an index carries
hypotheses keeping all accesses in range.
-/

set_option linter.unusedVariables false

namespace Miro

/-- Compass direction; the Python code represents these as the four string
literals in the tuple DIRECTIONS. -/
inductive Direction where
  | north
  | east
  | south
  | west
deriving DecidableEq

/-- Tuple DIRECTIONS, used to determine the next direction when turning and
scanning. -/
def DIRECTIONS : List Direction := [.north, .east, .south, .west]

/-- Index of a direction in DIRECTIONS (Python DIRECTIONS.index). -/
def dirIndex : Direction → Nat
  | .north => 0
  | .east => 1
  | .south => 2
  | .west => 3

/-- Position: coordinates on the doubled-coordinate map plus a facing
direction (Python class Position). -/
structure Position where
  x : Int
  y : Int
  direction : Direction
deriving DecidableEq

/-- Offset: helper structure for coordinate offsets (Python Position.Offset). -/
structure Offset where
  x : Int
  y : Int
deriving DecidableEq

/-- Step granularity for handle_direction: increment on the wall planes
(step 1) or on the cells (step 2). -/
inductive StepType where
  | walls
  | cells

/-- Position.right_of: DIRECTIONS[index + 1], wrapping to index 0 past the
end of the tuple. -/
def right_of (d : Direction) : Direction :=
  let possible_direction_index := dirIndex d + 1
  DIRECTIONS.getD (if possible_direction_index ≤ 3 then possible_direction_index else 0) .north

/-- Position.left_of: DIRECTIONS[index - 1]; the Python index -1 wraps to the
last element of the tuple, so this is index (dirIndex d + 3) mod 4. -/
def left_of (d : Direction) : Direction :=
  DIRECTIONS.getD ((dirIndex d + 3) % 4) .north

/-- Position.handle_direction: converts north/east/south/west into a
coordinate offset; step is 2 on the cells plane and 1 on the walls plane. -/
def handle_direction (step_type : StepType) (direction : Direction) : Offset :=
  let step : Int := match step_type with | .walls => 1 | .cells => 2
  match direction with
  | .north => ⟨0, -step⟩
  | .east => ⟨step, 0⟩
  | .south => ⟨0, step⟩
  | .west => ⟨-step, 0⟩

/-- Value held in one slot of a world-map list.  The Python code stores
None (unknown), the ints 0, 1, 2 (no-wall/cell, wall/pit, win) and the
string used for wall intersections; the int constants are shared between
the wall planes and the cell plane exactly as in the source. -/
inductive Slot where
  | unknown
  | num (n : Nat)
  | sect
deriving DecidableEq

def NO_WALL : Slot := .num 0
def WALL : Slot := .num 1
def CELL : Slot := .num 0
def PIT : Slot := .num 1
def WIN : Slot := .num 2

/-- Python truthiness of a slot value: None and 0 are falsy; nonzero ints
and the intersection marker are truthy. -/
def Slot.truthy : Slot → Bool
  | .unknown => false
  | .num n => n != 0
  | .sect => true

/-- Knowledge or world map: a list of rows of slots, indexed [y][x]. -/
abbrev Grid := List (List Slot)

/-- Read world_map[y][x].  In every verified run the indices are in range,
where this agrees with Python list indexing; out of range it returns
unknown (Python would wrap a negative index or raise). -/
def mapGet (g : Grid) (y x : Int) : Slot :=
  if 0 ≤ y ∧ 0 ≤ x then (((g.get? y.toNat).getD []).get? x.toNat).getD .unknown
  else .unknown

/-- Write world_map[y][x] = v.  In every verified run the indices are in
range, where this agrees with the Python in-place assignment; out of range
it is a no-op. -/
def mapSet (g : Grid) (y x : Int) (v : Slot) : Grid :=
  if 0 ≤ y ∧ 0 ≤ x then g.set y.toNat (((g.get? y.toNat).getD []).set x.toNat v)
  else g

/-- Python list repetition l * k. -/
def listRepeat (l : List Slot) (k : Nat) : List Slot := (List.replicate k l).flatten

/-- MiroHandler._generate_world_map: an empty (unknown) map with the outer
wall ring and all wall intersections already known, and the current cell
marked as explored. -/
def generate_world_map (map_dimensions : Nat) (start : Position) : Grid :=
  let ring : List Slot := [Slot.sect] ++ listRepeat [WALL, Slot.sect] (map_dimensions / 2)
  let innerRow : Nat → List Slot := fun i =>
    if i % 2 = 0 then [WALL] ++ List.replicate (map_dimensions - 2) Slot.unknown ++ [WALL]
    else [Slot.sect] ++ listRepeat [Slot.unknown, Slot.sect] (map_dimensions / 2)
  let base : Grid := [ring] ++ (List.range (map_dimensions - 2)).map innerRow ++ [ring]
  mapSet base start.y start.x CELL

/-- MiroHandler._get_cell_in_direction: the cell slot one cell step from the
position in the target direction. -/
def get_cell_in_direction (g : Grid) (positon : Position) (target_direction : Direction) : Slot :=
  let offset := handle_direction .cells target_direction
  mapGet g (positon.y + offset.y) (positon.x + offset.x)

/-- MiroHandler._get_wall_in_direction: the wall slot between the position
and the target direction. -/
def get_wall_in_direction (g : Grid) (positon : Position) (target_direction : Direction) : Slot :=
  let offset := handle_direction .walls target_direction
  mapGet g (positon.y + offset.y) (positon.x + offset.x)

/-- MiroHandler.check_valid_path: true when the wall slot toward the target
direction is falsy (no wall recorded there, or still None) and the target
cell slot is not the pit value. -/
def check_valid_path (g : Grid) (pos : Position) (target_direction : Direction) : Bool :=
  if !(get_wall_in_direction g pos target_direction).truthy then
    let offset := handle_direction .cells target_direction
    if !(mapGet g (pos.y + offset.y) (pos.x + offset.x) = PIT) then true
    else false
  else false

/-- MiroHandler.record_wall_infront: writes the wall value for the possible
wall in front of the Miro. -/
def record_wall_infront (g : Grid) (pos : Position) (wall_infront : Bool) : Grid :=
  let offset := handle_direction .walls pos.direction
  mapSet g (pos.y + offset.y) (pos.x + offset.x) (if wall_infront then WALL else NO_WALL)

/-- MiroHandler.record_pit_infront: writes the cell value for the cell in
front of the Miro. -/
def record_pit_infront (g : Grid) (pos : Position) (pit_infront : Bool) : Grid :=
  let offset := handle_direction .cells pos.direction
  mapSet g (pos.y + offset.y) (pos.x + offset.x) (if pit_infront then PIT else CELL)

/-- MiroHandler.direction_recorded: true when the direction has already been
recorded (wall known to be a wall, or wall known absent and the cell behind
it known). -/
def direction_recorded (g : Grid) (p : Position) (direction : Direction) : Bool :=
  let wall_value := get_wall_in_direction g p direction
  if wall_value = NO_WALL then
    if get_cell_in_direction g p direction = Slot.unknown then false else true
  else if wall_value = Slot.unknown then false
  else true

/-- MiroHandler.move_forward: moves one cell step in the facing direction. -/
def move_forward (p : Position) : Position :=
  let offset := handle_direction .cells p.direction
  { p with x := p.x + offset.x, y := p.y + offset.y }

/-- MiroHandler.move_backward: moves one cell step against the facing
direction. -/
def move_backward (p : Position) : Position :=
  let offset := handle_direction .cells p.direction
  { p with x := p.x - offset.x, y := p.y - offset.y }

/-- MiroHandler.turn_left: rotates the facing direction 90 degrees
counter-clockwise. -/
def turn_left (p : Position) : Position :=
  { p with direction := left_of p.direction }

/-- MiroHandler.turn_right: rotates the facing direction 90 degrees
clockwise. -/
def turn_right (p : Position) : Position :=
  { p with direction := right_of p.direction }

/-- Primitive turn actions issued by turn_to_face. -/
inductive Turn where
  | left
  | right
deriving DecidableEq

/-- Doubled tuple DIRECTIONS * 2 used by turn_to_face. -/
def direction_order : List Direction := DIRECTIONS ++ DIRECTIONS

/-- While loop of turn_to_face: starting at the given index, walk downward
until the entry equals the target direction, returning the index found. -/
def scan_down (target : Direction) : Nat → Nat
  | 0 => 0
  | i + 1 => if direction_order.getD (i + 1) .north = target then i + 1 else scan_down target i

/-- MiroHandler.turn_to_face, as the list of primitive turns it issues:
left_count is the downward distance in DIRECTIONS * 2 from the current
direction (offset by 4) to the target; 1 left, 2 two lefts, 3 one right,
otherwise no turn. -/
def turns_to_face (current target : Direction) : List Turn :=
  let start_index := dirIndex current + 4
  let current_index := scan_down target start_index
  let left_count := start_index - current_index
  if left_count = 1 then [.left]
  else if left_count = 2 then [.left, .left]
  else if left_count = 3 then [.right]
  else []

/-- Application of one primitive turn to the pose. -/
def apply_turn (p : Position) : Turn → Position
  | .left => turn_left p
  | .right => turn_right p

/-- Application of a sequence of primitive turns to the pose. -/
def apply_turns (p : Position) (ts : List Turn) : Position := ts.foldl apply_turn p

/-- MiroHandler.turn_to_face: the pose after issuing the primitive turns. -/
def turn_to_face (p : Position) (direction : Direction) : Position :=
  apply_turns p (turns_to_face p.direction direction)

/-- Minimal number of 90 degree rotations between two directions (either
rotation sense allowed). -/
def rotationDistance (f t : Direction) : Nat :=
  min ((dirIndex f + 4 - dirIndex t) % 4) ((dirIndex t + 4 - dirIndex f) % 4)

/-- Argument of MiroHandler.generate_direction_priority. -/
inductive PriorityOrder where
  | pathfinding
  | scanning

/-- MiroHandler.generate_direction_priority: for pathfinding the nominal
forward is left of the current facing (scanning ends rotated 90 degrees
clockwise); backward is computed from the current facing in both orders,
exactly as in the source. -/
def generate_direction_priority (p : Position) (order : PriorityOrder) : List Direction :=
  let forward_direction := match order with
    | .pathfinding => left_of p.direction
    | .scanning => p.direction
  let backward := left_of (left_of p.direction)
  match order with
  | .pathfinding =>
      [forward_direction, left_of forward_direction, right_of forward_direction, backward]
  | .scanning =>
      [forward_direction, left_of forward_direction, backward, right_of forward_direction]

/-- MiroHandler.count_surrounding_unexplored: for each direction from the
given cell, count it when there is no known wall that way and the cell
behind is still unrecorded. -/
def count_surrounding_unexplored (g : Grid) (scanning_start_cell : Position) : Nat :=
  DIRECTIONS.foldl
    (fun unexplored_cells_count scan_direction =>
      if !(get_wall_in_direction g scanning_start_cell scan_direction = WALL) then
        let offset := handle_direction .cells scan_direction
        if mapGet g (scanning_start_cell.y + offset.y) (scanning_start_cell.x + offset.x)
            = Slot.unknown then
          unexplored_cells_count + 1
        else unexplored_cells_count
      else unexplored_cells_count)
    0

/-- Unexplored count of the neighbour cell one cell step away in the given
direction, as computed inside find_best_direction. -/
def score (g : Grid) (p : Position) (d : Direction) : Nat :=
  let offset := handle_direction .cells d
  count_surrounding_unexplored g ⟨p.x + offset.x, p.y + offset.y, p.direction⟩

/-- Insertion-ordered dictionary of unexplored counts to direction lists,
modelling the Python dict of {count : [directions]} (Python dicts preserve
insertion order). -/
abbrev UnexploredDict := List (Nat × List Direction)

/-- Appending a direction under a count: reuse the existing entry or add a
new key at the end, as Python dict assignment plus list append does. -/
def dict_append (dict : UnexploredDict) (count : Nat) (d : Direction) : UnexploredDict :=
  match dict with
  | [] => [(count, [d])]
  | (k, l) :: rest =>
      if k = count then (k, l ++ [d]) :: rest else (k, l) :: dict_append rest count d

/-- Python max over the keys of the dict; max of an empty dict raises
ValueError, modelled as none. -/
def dict_max_key : UnexploredDict → Option Nat
  | [] => none
  | (k, _) :: rest => some (match dict_max_key rest with | none => k | some m => max k m)

/-- Python dict lookup dict[k] (empty when the key is absent; lookups in
find_best_direction only use present keys). -/
def dict_get (dict : UnexploredDict) (k : Nat) : List Direction :=
  match dict with
  | [] => []
  | e :: rest => if e.1 = k then e.2 else dict_get rest k

/-- Loop body of find_best_direction: a candidate direction with a valid
path is appended to the dict under its unexplored count, others are
skipped. -/
def fbd_step (g : Grid) (p : Position) (unexplored_dict : UnexploredDict)
    (move_direction : Direction) : UnexploredDict :=
  if check_valid_path g p move_direction then
    dict_append unexplored_dict (score g p move_direction) move_direction
  else unexplored_dict

/-- MiroHandler.find_best_direction: group the valid pathfinding candidates
by unexplored count, then take the first direction recorded under the
maximum count.  A run with no valid candidate raises ValueError in Python
(max of an empty dict), modelled as none; the handler state is not touched
by this computation. -/
def find_best_direction (g : Grid) (p : Position) : Option Direction :=
  match dict_max_key ((generate_direction_priority p .pathfinding).foldl (fbd_step g p) []) with
  | none => none
  | some m =>
      (dict_get ((generate_direction_priority p .pathfinding).foldl (fbd_step g p) []) m).head?

/-- Environment oracle interface: the three MiroSimulation percept queries,
each a pure function of the current pose. -/
structure Oracle where
  check_wall_infront : Position → Bool
  check_pit_infront : Position → Bool
  check_treasure_infront : Position → Bool

/-- MiroSimulation over a parsed world map: wall query is the truthiness of
the wall slot ahead, pit and treasure queries compare the cell slot ahead
with the pit and win values. -/
def simOracle (world : Grid) : Oracle where
  check_wall_infront := fun p =>
    let offset := handle_direction .walls p.direction
    (mapGet world (p.y + offset.y) (p.x + offset.x)).truthy
  check_pit_infront := fun p =>
    let offset := handle_direction .cells p.direction
    mapGet world (p.y + offset.y) (p.x + offset.x) = PIT
  check_treasure_infront := fun p =>
    let offset := handle_direction .cells p.direction
    mapGet world (p.y + offset.y) (p.x + offset.x) = WIN

/-- State owned by the exploration loop: the knowledge grid and the pose. -/
structure MiroState where
  grid : Grid
  pos : Position
deriving DecidableEq

/-- Outcome of part of the scan phase: either continue scanning, or the
treasure was seen ahead (goal_reached set, one forward move, break). -/
inductive ScanOut where
  | next (s : MiroState)
  | goal (s : MiroState)
deriving DecidableEq

/-- Body of the scan loop for one scanning direction: skip it when already
recorded; otherwise turn to face it, record the wall ahead, and when there
is none either detect the treasure (goal, move forward, break) or record
the pit value of the cell ahead. -/
def scan_one (oracle : Oracle) (s : MiroState) (scan_direction : Direction) : ScanOut :=
  if direction_recorded s.grid s.pos scan_direction then .next s
  else
    let p1 := turn_to_face s.pos scan_direction
    let wall_infront := oracle.check_wall_infront p1
    let g1 := record_wall_infront s.grid p1 wall_infront
    if wall_infront then .next ⟨g1, p1⟩
    else if oracle.check_treasure_infront p1 then .goal ⟨g1, move_forward p1⟩
    else .next ⟨record_pit_infront g1 p1 (oracle.check_pit_infront p1), p1⟩

/-- Scan loop over a list of scanning directions, with the break on goal. -/
def scan_list (oracle : Oracle) : MiroState → List Direction → ScanOut
  | s, [] => .next s
  | s, d :: rest =>
      match scan_one oracle s d with
      | .goal s1 => .goal s1
      | .next s1 => scan_list oracle s1 rest

/-- Scan phase of one outer iteration: the scanning directions are fixed
from the facing at the start of the phase. -/
def scan_phase (oracle : Oracle) (s : MiroState) : ScanOut :=
  scan_list oracle s (generate_direction_priority s.pos .scanning)

/-- Outcome of one outer loop iteration: continue, goal reached, or the
ValueError raised by find_best_direction on an empty candidate dict. -/
inductive StepRes where
  | next (s : MiroState)
  | goal (s : MiroState)
  | stuck (s : MiroState)
deriving DecidableEq

/-- One iteration of the module-level while loop: scan phase, then (unless
the goal was reached mid-scan) pick the best direction, turn to face it and
move forward; map rendering and the artificial delay are side-effect only
and omitted. -/
def loop_step (oracle : Oracle) (s : MiroState) : StepRes :=
  match scan_phase oracle s with
  | .goal s1 => .goal s1
  | .next s1 =>
      match find_best_direction s1.grid s1.pos with
      | none => .stuck s1
      | some target_drection =>
          let p2 := turn_to_face s1.pos target_drection
          .next ⟨s1.grid, move_forward p2⟩

/-- Iterated continuing states of the loop: some s after k full iterations
none of which reached the goal or got stuck. -/
def run (oracle : Oracle) (s : MiroState) : Nat → Option MiroState
  | 0 => some s
  | k + 1 =>
      match run oracle s k with
      | some s1 =>
          match loop_step oracle s1 with
          | .next s2 => some s2
          | _ => none
      | none => none

/-- MAP_SIZE of the reference configuration. -/
def MAP_SIZE : Nat := 4

/-- Starting pose of the reference run: Position(1, MAP_SIZE * 2 - 1, east). -/
def start_position : Position := ⟨1, MAP_SIZE * 2 - 1, .east⟩

/-- Initial handler state of the reference run:
MiroHandler(MAP_SIZE * 2 + 1, start_position). -/
def init_state : MiroState :=
  ⟨generate_world_map (MAP_SIZE * 2 + 1) start_position, start_position⟩

/-- Parsed WORLD_MAP_STRING of the reference configuration (walls 1,
open segments and plain cells 0, pits 1, treasure 2, intersections sect),
row by row as generate_world_map_from_file produces it. -/
def world9 : Grid :=
  [[.sect, .num 1, .sect, .num 1, .sect, .num 1, .sect, .num 1, .sect],
   [.num 1, .num 0, .num 0, .num 0, .num 0, .num 2, .num 0, .num 0, .num 1],
   [.sect, .num 0, .sect, .num 0, .sect, .num 1, .sect, .num 0, .sect],
   [.num 1, .num 0, .num 0, .num 1, .num 0, .num 0, .num 0, .num 0, .num 1],
   [.sect, .num 1, .sect, .num 0, .sect, .num 0, .sect, .num 0, .sect],
   [.num 1, .num 0, .num 0, .num 0, .num 0, .num 0, .num 0, .num 0, .num 1],
   [.sect, .num 0, .sect, .num 0, .sect, .num 0, .sect, .num 0, .sect],
   [.num 1, .num 0, .num 0, .num 0, .num 0, .num 1, .num 0, .num 0, .num 1],
   [.sect, .num 1, .sect, .num 1, .sect, .num 1, .sect, .num 1, .sect]]

/-- Oracle of the reference run. -/
def oracle9 : Oracle := simOracle world9

/-- One-by-one maze whose single cell holds the treasure: the 3 by 3
doubled-coordinate world map with all four boundary walls. -/
def world3 : Grid :=
  [[.sect, .num 1, .sect],
   [.num 1, .num 2, .num 1],
   [.sect, .num 1, .sect]]

/-- Oracle of the one-by-one maze. -/
def oracle3 : Oracle := simOracle world3

/-- Starting pose on the one-by-one maze: Position(1, 1 * 2 - 1, east). -/
def start_position3 : Position := ⟨1, 1, .east⟩

/-- Initial handler state on the one-by-one maze:
MiroHandler(1 * 2 + 1, start_position3). -/
def init_state3 : MiroState := ⟨generate_world_map 3 start_position3, start_position3⟩

/-! Basic lemmas. -/

/-- Folding the candidate grouping over directions none of which pass
check_valid_path leaves the dict untouched. -/
theorem foldl_no_valid (g : Grid) (p : Position) (l : List Direction) (A : UnexploredDict)
    (h : ∀ d ∈ l, check_valid_path g p d = false) :
    l.foldl (fbd_step g p) A = A := by
  induction l generalizing A with
  | nil => rfl
  | cons d rest ih =>
      rw [List.foldl_cons, fbd_step, h d (by simp)]
      simp only [Bool.false_eq_true, if_false]
      exact ih A (fun d hd => h d (by simp [hd]))

/-- Primitive turns never change the coordinates of the pose. -/
theorem apply_turns_coords (p : Position) (ts : List Turn) :
    (apply_turns p ts).x = p.x ∧ (apply_turns p ts).y = p.y := by
  induction ts generalizing p with
  | nil => exact ⟨rfl, rfl⟩
  | cons t rest ih =>
      have h := ih (apply_turn p t)
      cases t <;> simpa [apply_turns, apply_turn, turn_left, turn_right] using h

/-- Direction reached by a turn sequence depends only on the starting
direction, not on the coordinates. -/
theorem apply_turns_direction (p : Position) (ts : List Turn) :
    (apply_turns p ts).direction = (apply_turns ⟨0, 0, p.direction⟩ ts).direction := by
  induction ts generalizing p with
  | nil => rfl
  | cons t rest ih =>
      have h1 := ih (apply_turn p t)
      have h2 := ih (apply_turn ⟨0, 0, p.direction⟩ t)
      have h3 : (apply_turn p t).direction = (apply_turn ⟨0, 0, p.direction⟩ t).direction := by
        cases t <;> rfl
      calc (apply_turns p (t :: rest)).direction
        = (apply_turns ⟨0, 0, (apply_turn p t).direction⟩ rest).direction := h1
        _ = (apply_turns ⟨0, 0, (apply_turn ⟨0, 0, p.direction⟩ t).direction⟩ rest).direction := by
            rw [h3]
        _ = (apply_turns ⟨0, 0, p.direction⟩ (t :: rest)).direction := h2.symm

/-- Characterisation of check_valid_path: true exactly when the wall slot
is Unknown or NoWall and the cell slot is not the pit value.  Shared by
several claim theorems. -/
theorem check_valid_path_iff (g : Grid) (pos : Position) (d : Direction) :
    check_valid_path g pos d = true ↔
      ((get_wall_in_direction g pos d = Slot.unknown ∨ get_wall_in_direction g pos d = NO_WALL) ∧
        get_cell_in_direction g pos d ≠ PIT) := by
  have hcell :
      check_valid_path g pos d =
        (!(get_wall_in_direction g pos d).truthy && !(get_cell_in_direction g pos d = PIT)) := by
    unfold check_valid_path get_cell_in_direction
    rcases (get_wall_in_direction g pos d).truthy with _ | _ <;> simp
  rw [hcell]
  rcases hw : get_wall_in_direction g pos d with _ | n | _
  · simp [Slot.truthy]
  · cases n with
    | zero => simp [Slot.truthy, NO_WALL]
    | succ m => simp [Slot.truthy, NO_WALL]
  · simp [Slot.truthy, NO_WALL]

/-- Lookup in a dict after appending a direction under a count. -/
theorem dict_get_append (A : UnexploredDict) (c : Nat) (d : Direction) (k : Nat) :
    dict_get (dict_append A c d) k =
      if k = c then dict_get A k ++ [d] else dict_get A k := by
  induction A with
  | nil =>
      by_cases h : k = c
      · subst h; simp [dict_append, dict_get]
      · simp [dict_append, dict_get, h]
        omega
  | cons e rest ih =>
      obtain ⟨k0, l0⟩ := e
      by_cases hkc : k0 = c
      · subst hkc
        by_cases hk : k0 = k
        · subst hk
          simp [dict_append, dict_get]
        · have hk' : ¬ k = k0 := fun hh => hk hh.symm
          simp [dict_append, dict_get, hk, hk']
      · by_cases hk : k0 = k
        · subst hk
          simp [dict_append, dict_get, hkc, fun hh : k0 = c => hkc hh]
        · have hk' : ¬ k = k0 := fun hh => hk hh.symm
          simp [dict_append, dict_get, hkc, hk, hk', ih]

/-- Keys present in a dict after appending a direction under a count. -/
theorem dict_append_keys (A : UnexploredDict) (c : Nat) (d : Direction) (k : Nat) :
    k ∈ (dict_append A c d).map Prod.fst ↔ k = c ∨ k ∈ A.map Prod.fst := by
  induction A with
  | nil => simp [dict_append]
  | cons e rest ih =>
      obtain ⟨k0, l0⟩ := e
      by_cases h : k0 = c
      · subst h
        simp [dict_append]
        try tauto
      · simp [dict_append, h, ih]
        try tauto

/-- Appending to a dict never leaves it empty. -/
theorem dict_append_ne_nil (A : UnexploredDict) (c : Nat) (d : Direction) :
    dict_append A c d ≠ [] := by
  cases A with
  | nil => simp [dict_append]
  | cons e rest =>
      obtain ⟨k0, l0⟩ := e
      by_cases h : k0 = c <;> simp [dict_append, h]

/-- Max over the keys of a nonempty dict exists. -/
theorem dict_max_key_isSome (A : UnexploredDict) (h : A ≠ []) :
    ∃ m, dict_max_key A = some m := by
  cases A with
  | nil => exact absurd rfl h
  | cons e rest => exact ⟨_, rfl⟩

/-- Max over the keys of a dict is one of its keys. -/
theorem dict_max_key_mem (A : UnexploredDict) (m : Nat) (h : dict_max_key A = some m) :
    m ∈ A.map Prod.fst := by
  induction A generalizing m with
  | nil => simp [dict_max_key] at h
  | cons e rest ih =>
      rw [dict_max_key] at h
      cases hr : dict_max_key rest with
      | none => rw [hr] at h; simp at h; simp [h]
      | some m' =>
          rw [hr] at h
          simp only [Option.some.injEq] at h
          rcases le_total e.1 m' with hle | hle
          · rw [max_eq_right hle] at h
            subst h
            simp [ih m' hr]
          · rw [max_eq_left hle] at h
            simp [h]

/-- Max over the keys of a dict bounds every key. -/
theorem dict_max_key_ub (A : UnexploredDict) (m : Nat) (h : dict_max_key A = some m) :
    ∀ k ∈ A.map Prod.fst, k ≤ m := by
  induction A generalizing m with
  | nil => simp
  | cons e rest ih =>
      rw [dict_max_key] at h
      intro k hk
      rcases (by simpa using hk : k = e.1 ∨ k ∈ rest.map Prod.fst) with rfl | hk'
      · cases hr : dict_max_key rest with
        | none => rw [hr] at h; simp at h; omega
        | some m' =>
            rw [hr] at h
            simp only [Option.some.injEq] at h
            subst h
            exact le_max_left _ _
      · cases hr : dict_max_key rest with
        | none =>
            have : rest = [] := by
              cases rest with
              | nil => rfl
              | cons _ _ => simp [dict_max_key] at hr
            subst this
            simp at hk'
        | some m' =>
            rw [hr] at h
            simp only [Option.some.injEq] at h
            subst h
            exact le_trans (ih m' hr k hk') (le_max_right _ _)

/-- Keys of the candidate fold are exactly the unexplored counts of the
valid candidates, together with the keys already present. -/
theorem fold_keys (g : Grid) (p : Position) (l : List Direction) (A : UnexploredDict) (k : Nat) :
    k ∈ (l.foldl (fbd_step g p) A).map Prod.fst ↔
      k ∈ A.map Prod.fst ∨ ∃ d ∈ l, check_valid_path g p d = true ∧ score g p d = k := by
  induction l generalizing A with
  | nil => simp
  | cons d rest ih =>
      rw [List.foldl_cons, ih]
      unfold fbd_step
      by_cases hv : check_valid_path g p d
      · rw [if_pos hv, dict_append_keys]
        simp only [List.mem_cons]
        constructor
        · rintro ((rfl | hA) | hex)
          · exact Or.inr ⟨d, Or.inl rfl, hv, rfl⟩
          · exact Or.inl hA
          · obtain ⟨d1, hd1, h1, h2⟩ := hex
            exact Or.inr ⟨d1, Or.inr hd1, h1, h2⟩
        · rintro (hA | ⟨d1, (rfl | hd1), h1, h2⟩)
          · exact Or.inl (Or.inr hA)
          · exact Or.inl (Or.inl h2.symm)
          · exact Or.inr ⟨d1, hd1, h1, h2⟩
      · rw [if_neg hv]
        simp only [List.mem_cons]
        constructor
        · rintro (hA | ⟨d1, hd1, h1, h2⟩)
          · exact Or.inl hA
          · exact Or.inr ⟨d1, Or.inr hd1, h1, h2⟩
        · rintro (hA | ⟨d1, (rfl | hd1), h1, h2⟩)
          · exact Or.inl hA
          · exact absurd h1 (by simpa using hv)
          · exact Or.inr ⟨d1, hd1, h1, h2⟩

/-- Candidate fold starting from a nonempty dict, or fed at least one valid
candidate, ends nonempty. -/
theorem fold_ne_nil (g : Grid) (p : Position) (l : List Direction) (A : UnexploredDict)
    (h : A ≠ [] ∨ ∃ d ∈ l, check_valid_path g p d = true) :
    l.foldl (fbd_step g p) A ≠ [] := by
  induction l generalizing A with
  | nil =>
      rcases h with h | ⟨d, hd, _⟩
      · exact h
      · simp at hd
  | cons d0 rest ih =>
      rw [List.foldl_cons]
      apply ih
      unfold fbd_step
      rcases h with h | ⟨d, hd, hv⟩
      · left
        by_cases hv0 : check_valid_path g p d0 <;> simp [hv0, h, dict_append_ne_nil]
      · rcases List.mem_cons.1 hd with rfl | hd'
        · left; simp [hv, dict_append_ne_nil]
        · by_cases hv0 : check_valid_path g p d0
          · left; simp [hv0, dict_append_ne_nil]
          · right; exact ⟨d, hd', hv⟩

/-- Entry of the candidate fold under a count: exactly the valid candidates
with that unexplored count, in enumeration order. -/
theorem dict_get_fold (g : Grid) (p : Position) (l : List Direction) (A : UnexploredDict)
    (k : Nat) :
    dict_get (l.foldl (fbd_step g p) A) k =
      dict_get A k ++ l.filter (fun d => check_valid_path g p d && score g p d == k) := by
  induction l generalizing A with
  | nil => simp
  | cons d rest ih =>
      rw [List.foldl_cons, ih]
      unfold fbd_step
      by_cases hv : check_valid_path g p d
      · rw [if_pos hv, dict_get_append]
        by_cases hk : k = score g p d
        · rw [if_pos hk, List.filter_cons]
          simp [hv, hk.symm, List.append_assoc]
        · rw [if_neg hk, List.filter_cons]
          have hns : ¬ score g p d = k := fun hh => hk hh.symm
          simp [hv, hns]
      · rw [if_neg hv, List.filter_cons]
        simp [hv]

/-- Head of a filtered list is its first element satisfying the filter. -/
theorem head_of_filter {α : Type} (q : α → Bool) (l : List α) :
    (l.filter q).head? = l.find? q := by
  induction l with
  | nil => rfl
  | cons a rest ih =>
      by_cases h : q a
      · simp [List.filter_cons, h, List.find?_cons_of_pos]
      · have hf : q a = false := by simpa using h
        simp [List.filter_cons, List.find?_cons, hf, ih]

/-- Unfolding of find_best_direction once the max key of the candidate dict
is known. -/
theorem find_best_direction_eq (g : Grid) (p : Position) (M : Nat)
    (hM : dict_max_key
        ((generate_direction_priority p .pathfinding).foldl (fbd_step g p) []) = some M) :
    find_best_direction g p =
      ((generate_direction_priority p .pathfinding).filter
        (fun d => check_valid_path g p d && score g p d == M)).head? := by
  unfold find_best_direction
  rw [hM]
  dsimp only
  rw [dict_get_fold g p _ [] M]
  simp [dict_get]

/-- Valid-path property of whatever find_best_direction returns. -/
theorem find_best_direction_valid (g : Grid) (p : Position) (r : Direction)
    (h : find_best_direction g p = some r) :
    check_valid_path g p r = true ∧
      r ∈ generate_direction_priority p .pathfinding := by
  cases hM : dict_max_key
      ((generate_direction_priority p .pathfinding).foldl (fbd_step g p) []) with
  | none =>
      unfold find_best_direction at h
      rw [hM] at h
      exact absurd h (by simp)
  | some M =>
      rw [find_best_direction_eq g p M hM] at h
      cases hf : (generate_direction_priority p .pathfinding).filter
          (fun d => check_valid_path g p d && score g p d == M) with
      | nil => rw [hf] at h; exact absurd h (by simp)
      | cons a tl =>
          rw [hf] at h
          simp only [List.head?_cons, Option.some.injEq] at h
          have hmem : a ∈ (generate_direction_priority p .pathfinding).filter
              (fun d => check_valid_path g p d && score g p d == M) := by
            rw [hf]; exact List.mem_cons_self _ _
          have hsplit := List.mem_filter.1 hmem
          have hb := hsplit.2
          simp only [Bool.and_eq_true] at hb
          rw [← h]
          exact ⟨hb.1, hsplit.1⟩

/-! Infrastructure for the loop invariants. -/

/-- Setting one index of a list leaves the other indices unchanged. -/
theorem get_of_set_ne {α : Type} (l : List α) (i j : Nat) (a : α) (h : i ≠ j) :
    (l.set i a).get? j = l.get? j := by
  induction l generalizing i j with
  | nil => simp
  | cons b rest ih =>
      cases i with
      | zero => cases j with
        | zero => exact absurd rfl h
        | succ j0 => simp [List.set]
      | succ i0 => cases j with
        | zero => simp [List.set]
        | succ j0 => simpa [List.set] using ih i0 j0 (by omega)

/-- Setting one index of a list makes that index hold the new value. -/
theorem get_of_set_self {α : Type} (l : List α) (i : Nat) (a : α) (h : i < l.length) :
    (l.set i a).get? i = some a := by
  induction l generalizing i with
  | nil => simp at h
  | cons b rest ih =>
      cases i with
      | zero => simp [List.set]
      | succ i0 => simpa [List.set] using ih i0 (by simpa using h)

/-- Reading back a written slot. -/
theorem mapGet_mapSet_self (g : Grid) (y x : Int) (v : Slot)
    (hy : 0 ≤ y) (hx : 0 ≤ x) (hrow : y.toNat < g.length)
    (hcol : x.toNat < ((g.get? y.toNat).getD []).length) :
    mapGet (mapSet g y x v) y x = v := by
  unfold mapGet mapSet
  rw [if_pos ⟨hy, hx⟩, if_pos ⟨hy, hx⟩]
  rw [get_of_set_self g y.toNat _ hrow]
  simp only [Option.getD_some]
  rw [get_of_set_self _ x.toNat v hcol]
  rfl

/-- Reading past the end of a list. -/
theorem get_of_ge {α : Type} (l : List α) (i : Nat) (h : l.length ≤ i) : l.get? i = none := by
  induction l generalizing i with
  | nil => simp
  | cons b rest ih =>
      cases i with
      | zero => simp at h
      | succ i0 => simpa using ih i0 (by simpa using h)

/-- Reading any other slot after a write. -/
theorem mapGet_mapSet_ne (g : Grid) (y x y' x' : Int) (v : Slot)
    (h : y' ≠ y ∨ x' ≠ x) :
    mapGet (mapSet g y x v) y' x' = mapGet g y' x' := by
  unfold mapGet mapSet
  by_cases hw : 0 ≤ y ∧ 0 ≤ x
  · rw [if_pos hw]
    by_cases hr : 0 ≤ y' ∧ 0 ≤ x'
    · rw [if_pos hr, if_pos hr]
      by_cases hyy : y'.toNat = y.toNat
      · have hxx : x'.toNat ≠ x.toNat := by
          rcases h with h1 | h1
          · exact absurd (by omega : y' = y) h1
          · omega
        rw [hyy]
        by_cases hlen : y.toNat < g.length
        · rw [get_of_set_self g y.toNat _ hlen]
          simp only [Option.getD_some]
          rw [get_of_set_ne _ x.toNat x'.toNat v (fun hh => hxx hh.symm)]
        · have h1 : (g.set y.toNat (((g.get? y.toNat).getD []).set x.toNat v)).get? y.toNat
              = none :=
            get_of_ge _ _ (by simpa using Nat.le_of_not_lt hlen)
          have h2 : g.get? y.toNat = none := get_of_ge _ _ (Nat.le_of_not_lt hlen)
          rw [h1, h2]
      · rw [get_of_set_ne g y.toNat y'.toNat _ (fun hh => hyy hh.symm)]
    · rw [if_neg hr, if_neg hr]
  · rw [if_neg hw]

/-- Oracle whose three percept answers are functions of the map slot they
concern (the wall slot one wall step ahead, the cell slot one cell step
ahead): this is exactly how MiroSimulation answers, by reading its static
parsed world map at those slots. -/
structure FactoredOracle (oracle : Oracle) (W P T : Int → Int → Bool) : Prop where
  wall_eq : ∀ p : Position,
    oracle.check_wall_infront p =
      W (p.y + (handle_direction .walls p.direction).y)
        (p.x + (handle_direction .walls p.direction).x)
  pit_eq : ∀ p : Position,
    oracle.check_pit_infront p =
      P (p.y + (handle_direction .cells p.direction).y)
        (p.x + (handle_direction .cells p.direction).x)
  treasure_eq : ∀ p : Position,
    oracle.check_treasure_infront p =
      T (p.y + (handle_direction .cells p.direction).y)
        (p.x + (handle_direction .cells p.direction).x)

/-- Pose invariant of the reference run: odd coordinates, strictly inside
the 9 by 9 grid. -/
def poseOK (p : Position) : Prop :=
  p.x % 2 = 1 ∧ p.y % 2 = 1 ∧ 1 ≤ p.x ∧ p.x ≤ 7 ∧ 1 ≤ p.y ∧ p.y ≤ 7

/-- Well-typedness of one knowledge-grid slot relative to the factored
oracle: intersections stay the intersection marker, cell slots hold
Unknown or an oracle-consistent Cell/Pit, boundary wall slots stay Wall,
interior wall slots hold Unknown or an oracle-consistent value. -/
def slotOK (W P : Int → Int → Bool) (y x : Nat) (v : Slot) : Prop :=
  if y % 2 = 0 ∧ x % 2 = 0 then v = Slot.sect
  else if y % 2 = 1 ∧ x % 2 = 1 then
    (v = Slot.unknown ∨ v = CELL ∨ v = PIT) ∧
      (v = CELL → P y x = false) ∧ (v = PIT → P y x = true)
  else if y = 0 ∨ y = 8 ∨ x = 0 ∨ x = 8 then v = WALL
  else (v = Slot.unknown ∨ v = NO_WALL ∨ v = WALL) ∧ (v = NO_WALL → W y x = false)

/-- Shape plus slot invariant of the knowledge grid of the reference run. -/
def gridOK (W P : Int → Int → Bool) (g : Grid) : Prop :=
  g.length = 9 ∧ (∀ i, i < 9 → ((g.get? i).getD []).length = 9) ∧
    ∀ y, y < 9 → ∀ x, x < 9 → slotOK W P y x (mapGet g y x)

/-- Combined loop invariant. -/
def Inv (W P : Int → Int → Bool) (s : MiroState) : Prop :=
  poseOK s.pos ∧ gridOK W P s.grid

/-- Monotone evolution of grid knowledge: slots that are no longer Unknown
keep their exact value. -/
def GridMono (g g' : Grid) : Prop :=
  ∀ y : Nat, y < 9 → ∀ x : Nat, x < 9 →
    mapGet g (y : Int) (x : Int) ≠ Slot.unknown →
    mapGet g' (y : Int) (x : Int) = mapGet g (y : Int) (x : Int)

theorem gridMono_refl (g : Grid) : GridMono g g := fun _ _ _ _ _ => rfl

theorem gridMono_trans {g1 g2 g3 : Grid} (h12 : GridMono g1 g2) (h23 : GridMono g2 g3) :
    GridMono g1 g3 := by
  intro y hy x hx hne
  rw [h23 y hy x hx (by rw [h12 y hy x hx hne]; exact hne), h12 y hy x hx hne]

/-- Out-of-range reads of a well-shaped grid return unknown. -/
theorem mapGet_oob (g : Grid) (h9 : g.length = 9)
    (hrows : ∀ i, i < 9 → ((g.get? i).getD []).length = 9)
    (y x : Int) (h : ¬(0 ≤ y ∧ y ≤ 8 ∧ 0 ≤ x ∧ x ≤ 8)) : mapGet g y x = Slot.unknown := by
  unfold mapGet
  by_cases hw : 0 ≤ y ∧ 0 ≤ x
  · rw [if_pos hw]
    by_cases hy : y ≤ 8
    · have hx : ¬ x ≤ 8 := by omega
      have hyn : y.toNat < 9 := by omega
      have hrow := hrows y.toNat hyn
      rw [get_of_ge _ x.toNat (by omega)]
      rfl
    · rw [get_of_ge g y.toNat (by omega)]
      rfl
  · rw [if_neg hw]

/-- Reads inside the grid seen through the Nat-indexed invariant. -/
theorem mapGet_coe (g : Grid) (y x : Int) (hy : 0 ≤ y) (hx : 0 ≤ x) :
    mapGet g y x = mapGet g (y.toNat : Int) (x.toNat : Int) := by
  have h1 : (y.toNat : Int) = y := Int.toNat_of_nonneg hy
  have h2 : (x.toNat : Int) = x := Int.toNat_of_nonneg hx
  rw [h1, h2]

/-- Monotonicity applied at Int coordinates. -/
theorem mono_at (W P : Int → Int → Bool) (g g' : Grid) (hg : gridOK W P g)
    (hmono : GridMono g g') (y x : Int) (h : mapGet g y x ≠ Slot.unknown) :
    mapGet g' y x = mapGet g y x := by
  by_cases hin : 0 ≤ y ∧ y ≤ 8 ∧ 0 ≤ x ∧ x ≤ 8
  · have hy : (y.toNat : Int) = y := Int.toNat_of_nonneg hin.1
    have hx : (x.toNat : Int) = x := Int.toNat_of_nonneg hin.2.2.1
    have := hmono y.toNat (by omega) x.toNat (by omega)
    rw [hy, hx] at this
    exact this h
  · exact absurd (mapGet_oob g hg.1 hg.2.1 y x hin) h

/-- Boundary wall slots of an invariant-respecting grid hold Wall. -/
theorem boundary_wall (W P : Int → Int → Bool) (g : Grid) (hg : gridOK W P g)
    (y x : Int) (hy : 0 ≤ y ∧ y ≤ 8) (hx : 0 ≤ x ∧ x ≤ 8)
    (hpar : (y % 2 = 0 ∧ x % 2 = 1) ∨ (y % 2 = 1 ∧ x % 2 = 0))
    (hb : y = 0 ∨ y = 8 ∨ x = 0 ∨ x = 8) :
    mapGet g y x = WALL := by
  have hcoe := mapGet_coe g y x hy.1 hx.1
  have hs := hg.2.2 y.toNat (by omega) x.toNat (by omega)
  unfold slotOK at hs
  rw [if_neg (by omega), if_neg (by omega), if_pos (by omega)] at hs
  rw [hcoe]
  exact hs

/-- Interior wall slots of an invariant-respecting grid hold Unknown,
NoWall or Wall, with NoWall agreeing with the oracle. -/
theorem interior_wall (W P : Int → Int → Bool) (g : Grid) (hg : gridOK W P g)
    (y x : Int) (hy : 0 ≤ y ∧ y ≤ 8) (hx : 0 ≤ x ∧ x ≤ 8)
    (hpar : (y % 2 = 0 ∧ x % 2 = 1) ∨ (y % 2 = 1 ∧ x % 2 = 0))
    (hb : ¬(y = 0 ∨ y = 8 ∨ x = 0 ∨ x = 8)) :
    (mapGet g y x = Slot.unknown ∨ mapGet g y x = NO_WALL ∨ mapGet g y x = WALL) ∧
      (mapGet g y x = NO_WALL → W y x = false) := by
  have hs := hg.2.2 y.toNat (by omega) x.toNat (by omega)
  unfold slotOK at hs
  rw [if_neg (by omega), if_neg (by omega), if_neg (by omega)] at hs
  have hyy : ((y.toNat : Nat) : Int) = y := Int.toNat_of_nonneg hy.1
  have hxx : ((x.toNat : Nat) : Int) = x := Int.toNat_of_nonneg hx.1
  rw [hyy, hxx] at hs
  exact hs

/-- Cell slots of an invariant-respecting grid hold Unknown or an
oracle-consistent Cell/Pit value. -/
theorem cell_slot (W P : Int → Int → Bool) (g : Grid) (hg : gridOK W P g)
    (y x : Int) (hy : 0 ≤ y ∧ y ≤ 8) (hx : 0 ≤ x ∧ x ≤ 8)
    (hpar : y % 2 = 1 ∧ x % 2 = 1) :
    (mapGet g y x = Slot.unknown ∨ mapGet g y x = CELL ∨ mapGet g y x = PIT) ∧
      (mapGet g y x = CELL → P y x = false) ∧ (mapGet g y x = PIT → P y x = true) := by
  have hs := hg.2.2 y.toNat (by omega) x.toNat (by omega)
  unfold slotOK at hs
  rw [if_neg (by omega), if_pos (by omega)] at hs
  have hyy : ((y.toNat : Nat) : Int) = y := Int.toNat_of_nonneg hy.1
  have hxx : ((x.toNat : Nat) : Int) = x := Int.toNat_of_nonneg hx.1
  rw [hyy, hxx] at hs
  exact hs

/-- Intersection slots of an invariant-respecting grid hold the marker. -/
theorem sect_of_gridOK (W P : Int → Int → Bool) (g : Grid) (hg : gridOK W P g) :
    ∀ y : Nat, y < 9 → ∀ x : Nat, x < 9 → y % 2 = 0 → x % 2 = 0 →
      mapGet g (y : Int) (x : Int) = Slot.sect := by
  intro y hy x hx hey hex
  have hs := hg.2.2 y hy x hx
  unfold slotOK at hs
  rw [if_pos ⟨hey, hex⟩] at hs
  exact hs

/-- Writing an invariant-respecting value preserves gridOK. -/
theorem gridOK_mapSet (W P : Int → Int → Bool) (g : Grid) (hg : gridOK W P g)
    (y x : Int) (v : Slot) (hy : 0 ≤ y ∧ y ≤ 8) (hx : 0 ≤ x ∧ x ≤ 8)
    (hv : slotOK W P y.toNat x.toNat v) :
    gridOK W P (mapSet g y x v) := by
  have hshape : (mapSet g y x v).length = 9 := by
    unfold mapSet
    rw [if_pos ⟨hy.1, hx.1⟩]
    simpa using hg.1
  refine ⟨hshape, ?_, ?_⟩
  · intro i hi
    unfold mapSet
    rw [if_pos ⟨hy.1, hx.1⟩]
    by_cases hiy : i = y.toNat
    · rw [hiy]
      have hlen : y.toNat < g.length := by
        have h9 : g.length = 9 := hg.1
        omega
      rw [get_of_set_self g y.toNat _ hlen]
      simpa using hg.2.1 y.toNat (by omega)
    · rw [get_of_set_ne g y.toNat i _ (fun hh => hiy hh.symm)]
      exact hg.2.1 i hi
  · intro y' hy' x' hx'
    by_cases heq : (y' : Int) = y ∧ (x' : Int) = x
    · have h9 : g.length = 9 := hg.1
      have hrow : y.toNat < g.length := by omega
      have hcol : x.toNat < ((g.get? y.toNat).getD []).length := by
        have hrl := hg.2.1 y.toNat (by omega)
        omega
      have hself := mapGet_mapSet_self g y x v hy.1 hx.1 hrow hcol
      have hyy : y' = y.toNat := by omega
      have hxx : x' = x.toNat := by omega
      rw [heq.1, heq.2, hself, hyy, hxx]
      exact hv
    · have hne : (y' : Int) ≠ y ∨ (x' : Int) ≠ x := by tauto
      rw [mapGet_mapSet_ne g y x y' x' v hne]
      exact hg.2.2 y' hy' x' hx'

/-- Writing the old value, or writing over Unknown, is monotone. -/
theorem gridMono_mapSet (W P : Int → Int → Bool) (g : Grid) (hg : gridOK W P g)
    (y x : Int) (v : Slot) (hy : 0 ≤ y ∧ y ≤ 8) (hx : 0 ≤ x ∧ x ≤ 8)
    (hold : mapGet g y x = Slot.unknown ∨ mapGet g y x = v) :
    GridMono g (mapSet g y x v) := by
  intro y' hy' x' hx' hne
  by_cases heq : (y' : Int) = y ∧ (x' : Int) = x
  · have h9 : g.length = 9 := hg.1
    have hrow : y.toNat < g.length := by omega
    have hcol : x.toNat < ((g.get? y.toNat).getD []).length := by
      have hrl := hg.2.1 y.toNat (by omega)
      omega
    have hself := mapGet_mapSet_self g y x v hy.1 hx.1 hrow hcol
    rw [heq.1, heq.2] at hne ⊢
    rcases hold with hu | hv
    · exact absurd hu hne
    · rw [hself, hv]
  · have hne2 : (y' : Int) ≠ y ∨ (x' : Int) ≠ x := by tauto
    exact mapGet_mapSet_ne g y x y' x' v hne2

/-- Unfolding of a false direction_recorded test. -/
theorem direction_recorded_false (g : Grid) (p : Position) (d : Direction)
    (h : direction_recorded g p d = false) :
    get_wall_in_direction g p d = Slot.unknown ∨
      (get_wall_in_direction g p d = NO_WALL ∧ get_cell_in_direction g p d = Slot.unknown) := by
  unfold direction_recorded at h
  by_cases h1 : get_wall_in_direction g p d = NO_WALL
  · rw [if_pos h1] at h
    by_cases h2 : get_cell_in_direction g p d = Slot.unknown
    · exact Or.inr ⟨h1, h2⟩
    · rw [if_neg h2] at h
      cases h
  · rw [if_neg h1] at h
    by_cases h3 : get_wall_in_direction g p d = Slot.unknown
    · exact Or.inl h3
    · rw [if_neg h3] at h
      cases h

/-- direction_recorded only looks at the coordinates of the pose, never at
its facing. -/
theorem direction_recorded_coords (g : Grid) (p q : Position) (d : Direction)
    (hx : q.x = p.x) (hy : q.y = p.y) :
    direction_recorded g q d = direction_recorded g p d := by
  unfold direction_recorded get_wall_in_direction get_cell_in_direction
  rw [hx, hy]

/-- Recorded directions stay recorded under monotone grid evolution. -/
theorem direction_recorded_mono (W P : Int → Int → Bool) (g g' : Grid)
    (hg : gridOK W P g) (hmono : GridMono g g') (p : Position) (d : Direction)
    (h : direction_recorded g p d = true) : direction_recorded g' p d = true := by
  unfold direction_recorded at h ⊢
  by_cases h1 : get_wall_in_direction g p d = NO_WALL
  · rw [if_pos h1] at h
    by_cases h2 : get_cell_in_direction g p d = Slot.unknown
    · rw [if_pos h2] at h
      cases h
    · have hw : get_wall_in_direction g' p d = NO_WALL := by
        unfold get_wall_in_direction at h1 ⊢
        rw [mono_at W P g g' hg hmono _ _ (by rw [h1]; simp [NO_WALL]), h1]
      have hc : get_cell_in_direction g' p d = get_cell_in_direction g p d := by
        unfold get_cell_in_direction at h2 ⊢
        exact mono_at W P g g' hg hmono _ _ h2
      rw [if_pos hw, hc, if_neg h2]
  · by_cases h3 : get_wall_in_direction g p d = Slot.unknown
    · rw [if_neg h1, if_pos h3] at h
      cases h
    · have hw : get_wall_in_direction g' p d = get_wall_in_direction g p d := by
        unfold get_wall_in_direction at h3 ⊢
        exact mono_at W P g g' hg hmono _ _ h3
      rw [hw, if_neg h1, if_neg h3]

/-- Components determine a Position. -/
theorem position_eq (p q : Position) (hx : p.x = q.x) (hy : p.y = q.y)
    (hd : p.direction = q.direction) : p = q := by
  cases p
  cases q
  simp_all

/-- turn_to_face only changes the facing, to the requested direction. -/
theorem turn_to_face_eq (p : Position) (t : Direction) :
    turn_to_face p t = ⟨p.x, p.y, t⟩ := by
  have h1 := apply_turns_coords p (turns_to_face p.direction t)
  have h2 : (turn_to_face p t).direction = t := by
    obtain ⟨x, y, dir⟩ := p
    rw [turn_to_face, apply_turns_direction]
    dsimp only
    cases dir <;> cases t <;> decide
  exact position_eq _ _ h1.1 h1.2 h2

/-- Reading the wall slot, spelled out. -/
theorem get_wall_eq (g : Grid) (p : Position) (d : Direction) :
    get_wall_in_direction g p d =
      mapGet g (p.y + (handle_direction .walls d).y) (p.x + (handle_direction .walls d).x) := rfl

/-- Reading the cell slot, spelled out. -/
theorem get_cell_eq (g : Grid) (p : Position) (d : Direction) :
    get_cell_in_direction g p d =
      mapGet g (p.y + (handle_direction .cells d).y) (p.x + (handle_direction .cells d).x) := rfl

/-- Arithmetic shape of the two offsets of a direction. -/
theorem offset_facts (d : Direction) :
    (handle_direction .cells d).x = 2 * (handle_direction .walls d).x ∧
    (handle_direction .cells d).y = 2 * (handle_direction .walls d).y ∧
    (((handle_direction .walls d).x = 0 ∧
        ((handle_direction .walls d).y = 1 ∨ (handle_direction .walls d).y = -1)) ∨
      ((handle_direction .walls d).y = 0 ∧
        ((handle_direction .walls d).x = 1 ∨ (handle_direction .walls d).x = -1))) := by
  cases d <;> exact ⟨rfl, rfl, by decide⟩

/-- A written wall value respects slotOK on an interior wall slot. -/
theorem slotOK_wall_value (W P : Int → Int → Bool) (y x : Nat)
    (hpar : (y % 2 = 0 ∧ x % 2 = 1) ∨ (y % 2 = 1 ∧ x % 2 = 0))
    (hb : ¬(y = 0 ∨ y = 8 ∨ x = 0 ∨ x = 8)) (v : Slot)
    (hv : v = WALL ∨ (v = NO_WALL ∧ W y x = false)) : slotOK W P y x v := by
  unfold slotOK
  rw [if_neg (by omega), if_neg (by omega), if_neg hb]
  rcases hv with rfl | ⟨rfl, hw⟩
  · exact ⟨Or.inr (Or.inr rfl), fun hh => absurd hh (by decide)⟩
  · exact ⟨Or.inr (Or.inl rfl), fun _ => hw⟩

/-- A written cell value respects slotOK on a cell slot. -/
theorem slotOK_cell_value (W P : Int → Int → Bool) (y x : Nat)
    (hpar : y % 2 = 1 ∧ x % 2 = 1) (v : Slot)
    (hv : (v = CELL ∧ P y x = false) ∨ (v = PIT ∧ P y x = true)) : slotOK W P y x v := by
  unfold slotOK
  rw [if_neg (by omega), if_pos (by omega)]
  rcases hv with ⟨rfl, hp⟩ | ⟨rfl, hp⟩
  · exact ⟨Or.inr (Or.inl rfl), fun _ => hp, fun hh => absurd hh (by decide)⟩
  · exact ⟨Or.inr (Or.inr rfl), fun hh => absurd hh (by decide), fun _ => hp⟩

/-- A direction whose wall slot holds Wall counts as recorded. -/
theorem direction_recorded_of_wall (g : Grid) (p : Position) (d : Direction)
    (hw : get_wall_in_direction g p d = WALL) : direction_recorded g p d = true := by
  unfold direction_recorded
  rw [hw]
  simp [WALL, NO_WALL]

/-- A direction with NoWall recorded and a known cell counts as recorded. -/
theorem direction_recorded_of_nowall_cell (g : Grid) (p : Position) (d : Direction)
    (hw : get_wall_in_direction g p d = NO_WALL)
    (hc : get_cell_in_direction g p d ≠ Slot.unknown) :
    direction_recorded g p d = true := by
  unfold direction_recorded
  rw [hw]
  simp [NO_WALL, hc]

/-- Scan step that continues: the invariant is preserved, the pose keeps
its coordinates, the grid evolves monotonically and the scanned direction
ends up recorded. -/
theorem scan_one_next (oracle : Oracle) (W P T : Int → Int → Bool)
    (hfac : FactoredOracle oracle W P T) (s s' : MiroState) (d : Direction)
    (hinv : Inv W P s) (h : scan_one oracle s d = ScanOut.next s') :
    Inv W P s' ∧ s'.pos.x = s.pos.x ∧ s'.pos.y = s.pos.y ∧
      GridMono s.grid s'.grid ∧ direction_recorded s'.grid s'.pos d = true := by
  obtain ⟨hpose, hgrid⟩ := hinv
  obtain ⟨ho2x, ho2y, ho1⟩ := offset_facts d
  unfold scan_one at h
  by_cases hrec : direction_recorded s.grid s.pos d
  · rw [if_pos hrec] at h
    injection h with h
    subst h
    exact ⟨⟨hpose, hgrid⟩, rfl, rfl, gridMono_refl _, hrec⟩
  · rw [if_neg hrec, turn_to_face_eq] at h
    dsimp only at h
    rw [hfac.wall_eq ⟨s.pos.x, s.pos.y, d⟩] at h
    dsimp only at h
    unfold record_wall_infront record_pit_infront at h
    rw [hfac.pit_eq ⟨s.pos.x, s.pos.y, d⟩, hfac.treasure_eq ⟨s.pos.x, s.pos.y, d⟩] at h
    dsimp only at h
    have hgate := direction_recorded_false s.grid s.pos d (by simpa using hrec)
    rw [get_wall_eq, get_cell_eq] at hgate
    have hwb : 0 ≤ s.pos.y + (handle_direction .walls d).y ∧
        s.pos.y + (handle_direction .walls d).y ≤ 8 := by
      obtain ⟨_, _, _, _, _, _⟩ := hpose
      rcases ho1 with ⟨h1, h2 | h2⟩ | ⟨h1, h2 | h2⟩ <;> omega
    have hwbx : 0 ≤ s.pos.x + (handle_direction .walls d).x ∧
        s.pos.x + (handle_direction .walls d).x ≤ 8 := by
      obtain ⟨_, _, _, _, _, _⟩ := hpose
      rcases ho1 with ⟨h1, h2 | h2⟩ | ⟨h1, h2 | h2⟩ <;> omega
    have hwpar : ((s.pos.y + (handle_direction .walls d).y) % 2 = 0 ∧
          (s.pos.x + (handle_direction .walls d).x) % 2 = 1) ∨
        ((s.pos.y + (handle_direction .walls d).y) % 2 = 1 ∧
          (s.pos.x + (handle_direction .walls d).x) % 2 = 0) := by
      obtain ⟨hp1, hp2, _, _, _, _⟩ := hpose
      rcases ho1 with ⟨h1, h2 | h2⟩ | ⟨h1, h2 | h2⟩ <;> [left; left; right; right] <;>
        constructor <;> omega
    have hnb : ¬(s.pos.y + (handle_direction .walls d).y = 0 ∨
        s.pos.y + (handle_direction .walls d).y = 8 ∨
        s.pos.x + (handle_direction .walls d).x = 0 ∨
        s.pos.x + (handle_direction .walls d).x = 8) := by
      intro hbb
      have hbw := boundary_wall W P s.grid hgrid _ _ hwb hwbx hwpar hbb
      rcases hgate with h1 | ⟨h1, _⟩ <;> rw [h1] at hbw <;> exact absurd hbw (by decide)
    have hcb : 1 ≤ s.pos.y + (handle_direction .cells d).y ∧
        s.pos.y + (handle_direction .cells d).y ≤ 7 ∧
        1 ≤ s.pos.x + (handle_direction .cells d).x ∧
        s.pos.x + (handle_direction .cells d).x ≤ 7 := by
      obtain ⟨_, _, _, _, _, _⟩ := hpose
      rcases ho1 with ⟨h1, h2 | h2⟩ | ⟨h1, h2 | h2⟩ <;> omega
    have hcpar : (s.pos.y + (handle_direction .cells d).y) % 2 = 1 ∧
        (s.pos.x + (handle_direction .cells d).x) % 2 = 1 := by
      obtain ⟨hp1, hp2, _, _, _, _⟩ := hpose
      rcases ho1 with ⟨h1, h2 | h2⟩ | ⟨h1, h2 | h2⟩ <;> constructor <;> omega
    have hslotne : s.pos.y + (handle_direction .cells d).y ≠
          s.pos.y + (handle_direction .walls d).y ∨
        s.pos.x + (handle_direction .cells d).x ≠
          s.pos.x + (handle_direction .walls d).x := by
      rcases ho1 with ⟨h1, h2 | h2⟩ | ⟨h1, h2 | h2⟩ <;> [left; left; right; right] <;> omega
    cases hW : W (s.pos.y + (handle_direction .walls d).y)
        (s.pos.x + (handle_direction .walls d).x) with
    | true =>
        rw [hW] at h
        simp only [if_true] at h
        injection h with h
        subst h
        have hold : mapGet s.grid (s.pos.y + (handle_direction .walls d).y)
              (s.pos.x + (handle_direction .walls d).x) = Slot.unknown ∨
            mapGet s.grid (s.pos.y + (handle_direction .walls d).y)
              (s.pos.x + (handle_direction .walls d).x) = WALL := by
          rcases hgate with h1 | ⟨h1, _⟩
          · exact Or.inl h1
          · have hiw := interior_wall W P s.grid hgrid _ _ hwb hwbx hwpar hnb
            rw [hiw.2 h1] at hW
            cases hW
        have hOK : gridOK W P (mapSet s.grid (s.pos.y + (handle_direction .walls d).y)
            (s.pos.x + (handle_direction .walls d).x) WALL) :=
          gridOK_mapSet W P s.grid hgrid _ _ WALL hwb hwbx
            (slotOK_wall_value W P _ _ (by omega) (by omega) WALL (Or.inl rfl))
        have hself : mapGet (mapSet s.grid (s.pos.y + (handle_direction .walls d).y)
              (s.pos.x + (handle_direction .walls d).x) WALL)
            (s.pos.y + (handle_direction .walls d).y)
            (s.pos.x + (handle_direction .walls d).x) = WALL := by
          have h9 : s.grid.length = 9 := hgrid.1
          refine mapGet_mapSet_self s.grid _ _ WALL hwb.1 hwbx.1 (by omega) ?_
          have hrl := hgrid.2.1 (s.pos.y + (handle_direction .walls d).y).toNat (by omega)
          omega
        refine ⟨⟨hpose, hOK⟩, rfl, rfl, ?_, ?_⟩
        · exact gridMono_mapSet W P s.grid hgrid _ _ WALL hwb hwbx hold
        · exact direction_recorded_of_wall _ _ _ (by rw [get_wall_eq]; exact hself)
    | false =>
        rw [hW] at h
        simp only [Bool.false_eq_true, if_false] at h
        cases hT : T (s.pos.y + (handle_direction .cells d).y)
            (s.pos.x + (handle_direction .cells d).x) with
        | true =>
            rw [hT] at h
            simp only [if_true] at h
            cases h
        | false =>
            rw [hT] at h
            simp only [Bool.false_eq_true, if_false] at h
            injection h with h
            subst h
            have hWfalse : W (s.pos.y + (handle_direction .walls d).y)
                (s.pos.x + (handle_direction .walls d).x) = false := hW
            have hold1 : mapGet s.grid (s.pos.y + (handle_direction .walls d).y)
                  (s.pos.x + (handle_direction .walls d).x) = Slot.unknown ∨
                mapGet s.grid (s.pos.y + (handle_direction .walls d).y)
                  (s.pos.x + (handle_direction .walls d).x) = NO_WALL := by
              rcases hgate with h1 | ⟨h1, _⟩
              · exact Or.inl h1
              · exact Or.inr h1
            have hOK1 : gridOK W P (mapSet s.grid (s.pos.y + (handle_direction .walls d).y)
                (s.pos.x + (handle_direction .walls d).x) NO_WALL) :=
              gridOK_mapSet W P s.grid hgrid _ _ NO_WALL hwb hwbx
                (slotOK_wall_value W P _ _ (by omega) (by omega) NO_WALL
                  (Or.inr ⟨rfl, by
                    have hyy : (((s.pos.y + (handle_direction .walls d).y).toNat : Nat) : Int)
                        = s.pos.y + (handle_direction .walls d).y :=
                      Int.toNat_of_nonneg hwb.1
                    have hxx : (((s.pos.x + (handle_direction .walls d).x).toNat : Nat) : Int)
                        = s.pos.x + (handle_direction .walls d).x :=
                      Int.toNat_of_nonneg hwbx.1
                    rw [hyy, hxx]
                    exact hWfalse⟩))
            have hmono1 : GridMono s.grid
                (mapSet s.grid (s.pos.y + (handle_direction .walls d).y)
                  (s.pos.x + (handle_direction .walls d).x) NO_WALL) :=
              gridMono_mapSet W P s.grid hgrid _ _ NO_WALL hwb hwbx hold1
            have hcell := cell_slot W P s.grid hgrid
              (s.pos.y + (handle_direction .cells d).y)
              (s.pos.x + (handle_direction .cells d).x)
              ⟨by omega, by omega⟩ ⟨by omega, by omega⟩ hcpar
            have hcframe : mapGet (mapSet s.grid (s.pos.y + (handle_direction .walls d).y)
                  (s.pos.x + (handle_direction .walls d).x) NO_WALL)
                (s.pos.y + (handle_direction .cells d).y)
                (s.pos.x + (handle_direction .cells d).x) =
                mapGet s.grid (s.pos.y + (handle_direction .cells d).y)
                  (s.pos.x + (handle_direction .cells d).x) :=
              mapGet_mapSet_ne s.grid _ _ _ _ NO_WALL hslotne
            have hold2 : mapGet (mapSet s.grid (s.pos.y + (handle_direction .walls d).y)
                  (s.pos.x + (handle_direction .walls d).x) NO_WALL)
                (s.pos.y + (handle_direction .cells d).y)
                (s.pos.x + (handle_direction .cells d).x) = Slot.unknown ∨
                mapGet (mapSet s.grid (s.pos.y + (handle_direction .walls d).y)
                  (s.pos.x + (handle_direction .walls d).x) NO_WALL)
                (s.pos.y + (handle_direction .cells d).y)
                (s.pos.x + (handle_direction .cells d).x) =
                  (if P (s.pos.y + (handle_direction .cells d).y)
                      (s.pos.x + (handle_direction .cells d).x) then PIT else CELL) := by
              rw [hcframe]
              rcases hcell.1 with h1 | h1 | h1
              · exact Or.inl h1
              · rw [h1, hcell.2.1 h1]
                exact Or.inr rfl
              · rw [h1, hcell.2.2 h1]
                exact Or.inr rfl
            have hOK2 : gridOK W P (mapSet
                (mapSet s.grid (s.pos.y + (handle_direction .walls d).y)
                  (s.pos.x + (handle_direction .walls d).x) NO_WALL)
                (s.pos.y + (handle_direction .cells d).y)
                (s.pos.x + (handle_direction .cells d).x)
                (if P (s.pos.y + (handle_direction .cells d).y)
                    (s.pos.x + (handle_direction .cells d).x) then PIT else CELL)) := by
              refine gridOK_mapSet W P _ hOK1 _ _ _ ⟨by omega, by omega⟩ ⟨by omega, by omega⟩
                (slotOK_cell_value W P _ _ (by omega) _ ?_)
              have hyy : (((s.pos.y + (handle_direction .cells d).y).toNat : Nat) : Int)
                  = s.pos.y + (handle_direction .cells d).y := Int.toNat_of_nonneg (by omega)
              have hxx : (((s.pos.x + (handle_direction .cells d).x).toNat : Nat) : Int)
                  = s.pos.x + (handle_direction .cells d).x := Int.toNat_of_nonneg (by omega)
              rw [hyy, hxx]
              cases hP : P (s.pos.y + (handle_direction .cells d).y)
                  (s.pos.x + (handle_direction .cells d).x) <;> simp [hP]
            have hmono2 : GridMono
                (mapSet s.grid (s.pos.y + (handle_direction .walls d).y)
                  (s.pos.x + (handle_direction .walls d).x) NO_WALL)
                (mapSet (mapSet s.grid (s.pos.y + (handle_direction .walls d).y)
                  (s.pos.x + (handle_direction .walls d).x) NO_WALL)
                  (s.pos.y + (handle_direction .cells d).y)
                  (s.pos.x + (handle_direction .cells d).x)
                  (if P (s.pos.y + (handle_direction .cells d).y)
                      (s.pos.x + (handle_direction .cells d).x) then PIT else CELL)) :=
              gridMono_mapSet W P _ hOK1 _ _ _ ⟨by omega, by omega⟩ ⟨by omega, by omega⟩ hold2
            have hww : mapGet (mapSet
                (mapSet s.grid (s.pos.y + (handle_direction .walls d).y)
                  (s.pos.x + (handle_direction .walls d).x) NO_WALL)
                (s.pos.y + (handle_direction .cells d).y)
                (s.pos.x + (handle_direction .cells d).x)
                (if P (s.pos.y + (handle_direction .cells d).y)
                    (s.pos.x + (handle_direction .cells d).x) then PIT else CELL))
                (s.pos.y + (handle_direction .walls d).y)
                (s.pos.x + (handle_direction .walls d).x) = NO_WALL := by
              have hflip : s.pos.y + (handle_direction .walls d).y ≠
                    s.pos.y + (handle_direction .cells d).y ∨
                  s.pos.x + (handle_direction .walls d).x ≠
                    s.pos.x + (handle_direction .cells d).x := by
                rcases hslotne with h1 | h1
                · exact Or.inl (by omega)
                · exact Or.inr (by omega)
              rw [mapGet_mapSet_ne _ _ _ _ _ _ hflip]
              have h9 : s.grid.length = 9 := hgrid.1
              refine mapGet_mapSet_self s.grid _ _ NO_WALL hwb.1 hwbx.1 (by omega) ?_
              have hrl := hgrid.2.1 (s.pos.y + (handle_direction .walls d).y).toNat (by omega)
              omega
            have hcc : mapGet (mapSet
                (mapSet s.grid (s.pos.y + (handle_direction .walls d).y)
                  (s.pos.x + (handle_direction .walls d).x) NO_WALL)
                (s.pos.y + (handle_direction .cells d).y)
                (s.pos.x + (handle_direction .cells d).x)
                (if P (s.pos.y + (handle_direction .cells d).y)
                    (s.pos.x + (handle_direction .cells d).x) then PIT else CELL))
                (s.pos.y + (handle_direction .cells d).y)
                (s.pos.x + (handle_direction .cells d).x) =
                (if P (s.pos.y + (handle_direction .cells d).y)
                    (s.pos.x + (handle_direction .cells d).x) then PIT else CELL) := by
              have h9 : (mapSet s.grid (s.pos.y + (handle_direction .walls d).y)
                  (s.pos.x + (handle_direction .walls d).x) NO_WALL).length = 9 := hOK1.1
              refine mapGet_mapSet_self _ _ _ _ (by omega) (by omega) (by omega) ?_
              have hrl := hOK1.2.1 (s.pos.y + (handle_direction .cells d).y).toNat (by omega)
              omega
            refine ⟨⟨hpose, hOK2⟩, rfl, rfl, gridMono_trans hmono1 hmono2, ?_⟩
            refine direction_recorded_of_nowall_cell _ _ _ (by rw [get_wall_eq]; exact hww) ?_
            rw [get_cell_eq]
            dsimp only
            rw [hcc]
            cases hP : P (s.pos.y + (handle_direction .cells d).y)
                (s.pos.x + (handle_direction .cells d).x) <;> simp [hP, PIT, CELL]

/-- Scan step that breaks on the treasure: the invariant also holds for the
goal state (the wall ahead was just recorded open, so the one-cell forward
move stays inside the maze), and the grid evolves monotonically. -/
theorem scan_one_goal (oracle : Oracle) (W P T : Int → Int → Bool)
    (hfac : FactoredOracle oracle W P T) (s s' : MiroState) (d : Direction)
    (hinv : Inv W P s) (h : scan_one oracle s d = ScanOut.goal s') :
    Inv W P s' ∧ GridMono s.grid s'.grid := by
  obtain ⟨hpose, hgrid⟩ := hinv
  obtain ⟨ho2x, ho2y, ho1⟩ := offset_facts d
  unfold scan_one at h
  by_cases hrec : direction_recorded s.grid s.pos d
  · rw [if_pos hrec] at h
    cases h
  · rw [if_neg hrec, turn_to_face_eq] at h
    dsimp only at h
    rw [hfac.wall_eq ⟨s.pos.x, s.pos.y, d⟩] at h
    dsimp only at h
    unfold record_wall_infront record_pit_infront at h
    rw [hfac.pit_eq ⟨s.pos.x, s.pos.y, d⟩, hfac.treasure_eq ⟨s.pos.x, s.pos.y, d⟩] at h
    dsimp only at h
    have hgate := direction_recorded_false s.grid s.pos d (by simpa using hrec)
    rw [get_wall_eq, get_cell_eq] at hgate
    have hwb : 0 ≤ s.pos.y + (handle_direction .walls d).y ∧
        s.pos.y + (handle_direction .walls d).y ≤ 8 := by
      obtain ⟨_, _, _, _, _, _⟩ := hpose
      rcases ho1 with ⟨h1, h2 | h2⟩ | ⟨h1, h2 | h2⟩ <;> omega
    have hwbx : 0 ≤ s.pos.x + (handle_direction .walls d).x ∧
        s.pos.x + (handle_direction .walls d).x ≤ 8 := by
      obtain ⟨_, _, _, _, _, _⟩ := hpose
      rcases ho1 with ⟨h1, h2 | h2⟩ | ⟨h1, h2 | h2⟩ <;> omega
    have hwpar : ((s.pos.y + (handle_direction .walls d).y) % 2 = 0 ∧
          (s.pos.x + (handle_direction .walls d).x) % 2 = 1) ∨
        ((s.pos.y + (handle_direction .walls d).y) % 2 = 1 ∧
          (s.pos.x + (handle_direction .walls d).x) % 2 = 0) := by
      obtain ⟨hp1, hp2, _, _, _, _⟩ := hpose
      rcases ho1 with ⟨h1, h2 | h2⟩ | ⟨h1, h2 | h2⟩ <;> [left; left; right; right] <;>
        constructor <;> omega
    have hnb : ¬(s.pos.y + (handle_direction .walls d).y = 0 ∨
        s.pos.y + (handle_direction .walls d).y = 8 ∨
        s.pos.x + (handle_direction .walls d).x = 0 ∨
        s.pos.x + (handle_direction .walls d).x = 8) := by
      intro hbb
      have hbw := boundary_wall W P s.grid hgrid _ _ hwb hwbx hwpar hbb
      rcases hgate with h1 | ⟨h1, _⟩ <;> rw [h1] at hbw <;> exact absurd hbw (by decide)
    have hcb : 1 ≤ s.pos.y + (handle_direction .cells d).y ∧
        s.pos.y + (handle_direction .cells d).y ≤ 7 ∧
        1 ≤ s.pos.x + (handle_direction .cells d).x ∧
        s.pos.x + (handle_direction .cells d).x ≤ 7 := by
      obtain ⟨_, _, _, _, _, _⟩ := hpose
      rcases ho1 with ⟨h1, h2 | h2⟩ | ⟨h1, h2 | h2⟩ <;> omega
    have hcpar : (s.pos.y + (handle_direction .cells d).y) % 2 = 1 ∧
        (s.pos.x + (handle_direction .cells d).x) % 2 = 1 := by
      obtain ⟨hp1, hp2, _, _, _, _⟩ := hpose
      rcases ho1 with ⟨h1, h2 | h2⟩ | ⟨h1, h2 | h2⟩ <;> constructor <;> omega
    cases hW : W (s.pos.y + (handle_direction .walls d).y)
        (s.pos.x + (handle_direction .walls d).x) with
    | true =>
        rw [hW] at h
        simp only [if_true] at h
        cases h
    | false =>
        rw [hW] at h
        simp only [Bool.false_eq_true, if_false] at h
        cases hT : T (s.pos.y + (handle_direction .cells d).y)
            (s.pos.x + (handle_direction .cells d).x) with
        | false =>
            rw [hT] at h
            simp only [Bool.false_eq_true, if_false] at h
            cases h
        | true =>
            rw [hT] at h
            simp only [if_true] at h
            injection h with h
            subst h
            have hold1 : mapGet s.grid (s.pos.y + (handle_direction .walls d).y)
                  (s.pos.x + (handle_direction .walls d).x) = Slot.unknown ∨
                mapGet s.grid (s.pos.y + (handle_direction .walls d).y)
                  (s.pos.x + (handle_direction .walls d).x) = NO_WALL := by
              rcases hgate with h1 | ⟨h1, _⟩
              · exact Or.inl h1
              · exact Or.inr h1
            have hOK1 : gridOK W P (mapSet s.grid (s.pos.y + (handle_direction .walls d).y)
                (s.pos.x + (handle_direction .walls d).x) NO_WALL) :=
              gridOK_mapSet W P s.grid hgrid _ _ NO_WALL hwb hwbx
                (slotOK_wall_value W P _ _ (by omega) (by omega) NO_WALL
                  (Or.inr ⟨rfl, by
                    have hyy : (((s.pos.y + (handle_direction .walls d).y).toNat : Nat) : Int)
                        = s.pos.y + (handle_direction .walls d).y :=
                      Int.toNat_of_nonneg hwb.1
                    have hxx : (((s.pos.x + (handle_direction .walls d).x).toNat : Nat) : Int)
                        = s.pos.x + (handle_direction .walls d).x :=
                      Int.toNat_of_nonneg hwbx.1
                    rw [hyy, hxx]
                    exact hW⟩))
            refine ⟨⟨?_, hOK1⟩, gridMono_mapSet W P s.grid hgrid _ _ NO_WALL hwb hwbx hold1⟩
            unfold move_forward poseOK
            dsimp only
            obtain ⟨hp1, hp2, _, _, _, _⟩ := hpose
            exact ⟨by omega, by omega, by omega, by omega, by omega, by omega⟩

/-- Scan loop that completes without the goal break: the invariant is
preserved, the pose keeps its coordinates, the grid evolves monotonically,
and every direction that was scanned or already recorded is recorded. -/
theorem scan_list_next (oracle : Oracle) (W P T : Int → Int → Bool)
    (hfac : FactoredOracle oracle W P T) (l : List Direction) (s s' : MiroState)
    (hinv : Inv W P s) (h : scan_list oracle s l = ScanOut.next s') :
    Inv W P s' ∧ s'.pos.x = s.pos.x ∧ s'.pos.y = s.pos.y ∧ GridMono s.grid s'.grid ∧
      ∀ d, (d ∈ l ∨ direction_recorded s.grid s.pos d = true) →
        direction_recorded s'.grid s'.pos d = true := by
  induction l generalizing s with
  | nil =>
      unfold scan_list at h
      injection h with h
      subst h
      refine ⟨hinv, rfl, rfl, gridMono_refl _, ?_⟩
      intro d hd
      rcases hd with hd | hd
      · cases hd
      · exact hd
  | cons d0 rest ih =>
      unfold scan_list at h
      cases h1 : scan_one oracle s d0 with
      | goal s1 =>
          rw [h1] at h
          cases h
      | next s1 =>
          rw [h1] at h
          obtain ⟨hinv1, hx1, hy1, hmono1, hrec1⟩ :=
            scan_one_next oracle W P T hfac s s1 d0 hinv h1
          obtain ⟨hinv', hx', hy', hmono', hpers⟩ := ih s1 hinv1 h
          refine ⟨hinv', hx'.trans hx1, hy'.trans hy1, gridMono_trans hmono1 hmono', ?_⟩
          intro d hd
          rcases hd with hd | hd
          · rcases List.mem_cons.1 hd with rfl | hd'
            · exact hpers d (Or.inr hrec1)
            · exact hpers d (Or.inl hd')
          · have hs1 : direction_recorded s1.grid s1.pos d = true := by
              rw [direction_recorded_coords s1.grid s.pos s1.pos d hx1 hy1]
              exact direction_recorded_mono W P s.grid s1.grid hinv.2 hmono1 s.pos d hd
            exact hpers d (Or.inr hs1)

/-- Scan loop that breaks on the treasure: invariant and monotonicity. -/
theorem scan_list_goal (oracle : Oracle) (W P T : Int → Int → Bool)
    (hfac : FactoredOracle oracle W P T) (l : List Direction) (s s' : MiroState)
    (hinv : Inv W P s) (h : scan_list oracle s l = ScanOut.goal s') :
    Inv W P s' ∧ GridMono s.grid s'.grid := by
  induction l generalizing s with
  | nil =>
      unfold scan_list at h
      cases h
  | cons d0 rest ih =>
      unfold scan_list at h
      cases h1 : scan_one oracle s d0 with
      | goal s1 =>
          rw [h1] at h
          injection h with h
          subst h
          exact scan_one_goal oracle W P T hfac s _ d0 hinv h1
      | next s1 =>
          rw [h1] at h
          obtain ⟨hinv1, _, _, hmono1, _⟩ := scan_one_next oracle W P T hfac s s1 d0 hinv h1
          obtain ⟨hinv', hmono'⟩ := ih s1 hinv1 h
          exact ⟨hinv', gridMono_trans hmono1 hmono'⟩

/-- Scanning priority covers every compass direction. -/
theorem scanning_covers (p : Position) (d : Direction) :
    d ∈ generate_direction_priority p .scanning := by
  obtain ⟨x, y, dir⟩ := p
  cases dir <;> cases d <;>
    simp [generate_direction_priority, left_of, right_of, dirIndex, DIRECTIONS]

/-- A valid move direction keeps the pose on an interior cell. -/
theorem move_pose_ok (W P : Int → Int → Bool) (g : Grid) (p : Position) (r : Direction)
    (hpose : poseOK p) (hg : gridOK W P g) (hvalid : check_valid_path g p r = true) :
    poseOK (move_forward ⟨p.x, p.y, r⟩) := by
  obtain ⟨ho2x, ho2y, ho1⟩ := offset_facts r
  have hiff := (check_valid_path_iff g p r).1 hvalid
  rw [get_wall_eq] at hiff
  have hwb : 0 ≤ p.y + (handle_direction .walls r).y ∧
      p.y + (handle_direction .walls r).y ≤ 8 := by
    obtain ⟨_, _, _, _, _, _⟩ := hpose
    rcases ho1 with ⟨h1, h2 | h2⟩ | ⟨h1, h2 | h2⟩ <;> omega
  have hwbx : 0 ≤ p.x + (handle_direction .walls r).x ∧
      p.x + (handle_direction .walls r).x ≤ 8 := by
    obtain ⟨_, _, _, _, _, _⟩ := hpose
    rcases ho1 with ⟨h1, h2 | h2⟩ | ⟨h1, h2 | h2⟩ <;> omega
  have hwpar : ((p.y + (handle_direction .walls r).y) % 2 = 0 ∧
        (p.x + (handle_direction .walls r).x) % 2 = 1) ∨
      ((p.y + (handle_direction .walls r).y) % 2 = 1 ∧
        (p.x + (handle_direction .walls r).x) % 2 = 0) := by
    obtain ⟨hp1, hp2, _, _, _, _⟩ := hpose
    rcases ho1 with ⟨h1, h2 | h2⟩ | ⟨h1, h2 | h2⟩ <;> [left; left; right; right] <;>
      constructor <;> omega
  have hnb : ¬(p.y + (handle_direction .walls r).y = 0 ∨
      p.y + (handle_direction .walls r).y = 8 ∨
      p.x + (handle_direction .walls r).x = 0 ∨
      p.x + (handle_direction .walls r).x = 8) := by
    intro hbb
    have hbw := boundary_wall W P g hg _ _ hwb hwbx hwpar hbb
    rcases hiff.1 with h1 | h1 <;> rw [h1] at hbw <;> exact absurd hbw (by decide)
  unfold move_forward poseOK
  dsimp only
  obtain ⟨hp1, hp2, _, _, _, _⟩ := hpose
  exact ⟨by omega, by omega, by omega, by omega, by omega, by omega⟩

/-- One outer iteration preserves the invariant and is knowledge-monotone,
whichever way it ends. -/
theorem loop_step_inv (oracle : Oracle) (W P T : Int → Int → Bool)
    (hfac : FactoredOracle oracle W P T) (s : MiroState) (hinv : Inv W P s) :
    ∀ s', (loop_step oracle s = StepRes.next s' ∨ loop_step oracle s = StepRes.goal s' ∨
        loop_step oracle s = StepRes.stuck s') →
      Inv W P s' ∧ GridMono s.grid s'.grid := by
  intro s' hcase
  unfold loop_step at hcase
  cases hscan : scan_phase oracle s with
  | goal s1 =>
      rw [hscan] at hcase
      dsimp only at hcase
      unfold scan_phase at hscan
      rcases hcase with hc | hc | hc
      · cases hc
      · injection hc with hc
        subst hc
        exact scan_list_goal oracle W P T hfac _ s _ hinv hscan
      · cases hc
  | next s1 =>
      rw [hscan] at hcase
      dsimp only at hcase
      unfold scan_phase at hscan
      obtain ⟨hinv1, hx1, hy1, hmono1, _⟩ :=
        scan_list_next oracle W P T hfac _ s s1 hinv hscan
      cases hfbd : find_best_direction s1.grid s1.pos with
      | none =>
          rw [hfbd] at hcase
          rcases hcase with hc | hc | hc
          · cases hc
          · cases hc
          · injection hc with hc
            subst hc
            exact ⟨hinv1, hmono1⟩
      | some r =>
          rw [hfbd] at hcase
          rcases hcase with hc | hc | hc
          · injection hc with hc
            subst hc
            obtain ⟨hvalid, _⟩ := find_best_direction_valid s1.grid s1.pos r hfbd
            refine ⟨⟨?_, hinv1.2⟩, hmono1⟩
            rw [turn_to_face_eq]
            exact move_pose_ok W P s1.grid s1.pos r hinv1.1 hinv1.2 hvalid
          · cases hc
          · cases hc

instance slotOK_decidable (W P : Int → Int → Bool) (y x : Nat) (v : Slot) :
    Decidable (slotOK W P y x v) := by
  unfold slotOK
  infer_instance

instance poseOK_decidable (p : Position) : Decidable (poseOK p) := by
  unfold poseOK
  infer_instance

instance gridOK_decidable (W P : Int → Int → Bool) (g : Grid) : Decidable (gridOK W P g) := by
  unfold gridOK
  infer_instance

instance inv_decidable (W P : Int → Int → Bool) (s : MiroState) : Decidable (Inv W P s) := by
  unfold Inv
  infer_instance

/-- Invariant of the initial handler state of the reference run, for any
factored oracle that does not report a pit in the starting cell. -/
theorem init_inv (W P : Int → Int → Bool) (hstart : P 7 1 = false) : Inv W P init_state := by
  have hcA : ∀ y : Nat, y < 9 → ∀ x : Nat, x < 9 → (y % 2 = 0 ∧ x % 2 = 0) →
      mapGet init_state.grid (y : Int) (x : Int) = Slot.sect := by
    decide
  have hcB : ∀ y : Nat, y < 9 → ∀ x : Nat, x < 9 → (y % 2 = 1 ∧ x % 2 = 1) →
      mapGet init_state.grid (y : Int) (x : Int) = Slot.unknown ∨
        (y = 7 ∧ x = 1 ∧ mapGet init_state.grid (y : Int) (x : Int) = CELL) := by
    decide
  have hcC : ∀ y : Nat, y < 9 → ∀ x : Nat, x < 9 →
      (y % 2 ≠ x % 2 ∧ (y = 0 ∨ y = 8 ∨ x = 0 ∨ x = 8)) →
      mapGet init_state.grid (y : Int) (x : Int) = WALL := by
    decide
  have hcD : ∀ y : Nat, y < 9 → ∀ x : Nat, x < 9 →
      (y % 2 ≠ x % 2 ∧ 1 ≤ y ∧ y ≤ 7 ∧ 1 ≤ x ∧ x ≤ 7) →
      mapGet init_state.grid (y : Int) (x : Int) = Slot.unknown := by
    decide
  refine ⟨by decide, by decide, by decide, ?_⟩
  intro y hy x hx
  unfold slotOK
  by_cases he : y % 2 = 0 ∧ x % 2 = 0
  · rw [if_pos he]
    exact hcA y hy x hx he
  · rw [if_neg he]
    by_cases hcp : y % 2 = 1 ∧ x % 2 = 1
    · rw [if_pos hcp]
      rcases hcB y hy x hx hcp with hu | ⟨hy7, hx1, hcell⟩
      · rw [hu]
        exact ⟨Or.inl rfl, fun hh => absurd hh (by decide), fun hh => absurd hh (by decide)⟩
      · subst hy7
        subst hx1
        rw [hcell]
        refine ⟨Or.inr (Or.inl rfl), fun _ => ?_, fun hh => absurd hh (by decide)⟩
        simpa using hstart
    · rw [if_neg hcp]
      by_cases hb : y = 0 ∨ y = 8 ∨ x = 0 ∨ x = 8
      · rw [if_pos hb]
        exact hcC y hy x hx ⟨by omega, hb⟩
      · rw [if_neg hb]
        rw [hcD y hy x hx ⟨by omega, by omega, by omega, by omega, by omega⟩]
        exact ⟨Or.inl rfl, fun hh => absurd hh (by decide)⟩

/-- Wall percept of the reference simulation as a function of the slot. -/
def W9 : Int → Int → Bool := fun y x => (mapGet world9 y x).truthy

/-- Pit percept of the reference simulation as a function of the slot. -/
def P9 : Int → Int → Bool := fun y x => mapGet world9 y x = PIT

/-- Treasure percept of the reference simulation as a function of the slot. -/
def T9 : Int → Int → Bool := fun y x => mapGet world9 y x = WIN

/-- The reference simulation answers its three queries by reading the slot
ahead of the pose in its static map: it is a factored oracle. -/
theorem oracle9_factored : FactoredOracle oracle9 W9 P9 T9 :=
  ⟨fun p => rfl, fun p => rfl, fun p => rfl⟩

/-- Knowledge state of the reference run after its first scan phase. -/
def scanState9 : MiroState :=
  ⟨mapSet (mapSet (mapSet (mapSet init_state.grid 7 2 NO_WALL) 7 3 CELL) 6 1 NO_WALL)
      5 1 CELL,
    ⟨1, 7, .north⟩⟩

/-- State of the reference run after one full loop iteration. -/
def miroS1 : MiroState := ⟨scanState9.grid, ⟨1, 5, .north⟩⟩

/-! Claim theorems. -/

/-- C1 counterexample: at the very first pose of the reference run the wall
slot toward north is still Unknown, yet check_valid_path already reports
the direction as open, contradicting the claim that an Unknown wall is
treated as not open. -/
theorem C1_unknown_wall_counterexample :
    get_wall_in_direction init_state.grid start_position .north = Slot.unknown ∧
    check_valid_path init_state.grid start_position .north = true := by
  constructor <;> decide

/-- C1 amended: check_valid_path returns true iff the wall slot toward the
direction is falsy, i.e. recorded NoWall or still Unknown (an Unknown wall
is treated as open, not closed), and the neighbouring cell slot is not
recorded Pit. -/
theorem C1_check_valid_path_characterization (g : Grid) (pos : Position) (d : Direction) :
    check_valid_path g pos d = true ↔
      ((get_wall_in_direction g pos d = Slot.unknown ∨ get_wall_in_direction g pos d = NO_WALL) ∧
        get_cell_in_direction g pos d ≠ PIT) := by
  have hcell :
      check_valid_path g pos d =
        (!(get_wall_in_direction g pos d).truthy && !(get_cell_in_direction g pos d = PIT)) := by
    unfold check_valid_path get_cell_in_direction
    rcases (get_wall_in_direction g pos d).truthy with _ | _ <;> simp
  rw [hcell]
  rcases hw : get_wall_in_direction g pos d with _ | n | _
  · simp [Slot.truthy]
  · cases n with
    | zero => simp [Slot.truthy, NO_WALL]
    | succ m => simp [Slot.truthy, NO_WALL]
  · simp [Slot.truthy, NO_WALL]

/-- C2 counterexample: facing north, the pathfinding priority contains
south twice and omits east entirely, contradicting the claim that the
sequence enumerates the four compass directions exactly once with the
fourth element equal to right(f). -/
theorem C2_pathfinding_priority_counterexample :
    (generate_direction_priority ⟨1, 7, .north⟩ .pathfinding).count Direction.south = 2 ∧
    Direction.east ∉ generate_direction_priority ⟨1, 7, .north⟩ .pathfinding := by
  decide

/-- C2 amended: the pathfinding priority is (left(f), left(left(f)),
right(left(f)), left(left(f))): the backward entry is computed from the
current facing f rather than from the nominal forward left(f), so it
duplicates the second entry and right(f) never appears. -/
theorem C2_pathfinding_priority_formula (p : Position) :
    generate_direction_priority p .pathfinding =
      [left_of p.direction, left_of (left_of p.direction),
       right_of (left_of p.direction), left_of (left_of p.direction)] ∧
    right_of p.direction ∉ generate_direction_priority p .pathfinding := by
  cases p with
  | mk x y dir =>
      cases dir <;>
        exact ⟨rfl, by simp [generate_direction_priority, right_of, left_of, dirIndex, DIRECTIONS]⟩

/-- C4 counterexample: on the one-by-one maze whose single cell holds the
treasure, the first scan phase does nothing at all (every direction is a
pre-recorded boundary wall) and the first iteration ends in the stuck
error, not in a goal state: the loop never reaches GoalFound. -/
theorem C4_one_by_one_counterexample :
    scan_phase oracle3 init_state3 = ScanOut.next init_state3 ∧
    loop_step oracle3 init_state3 = StepRes.stuck init_state3 := by
  constructor <;> decide

/-- C4 amended: on the one-by-one maze the four boundary walls are already
recorded at initialisation, so the scan phase records nothing and never
queries the treasure (which sits in the current cell, never in the cell
ahead); the decide phase then finds no valid direction and the run dies
with the ValueError of max over an empty dict, never reaching a goal
state. -/
theorem C4_one_by_one_stuck :
    find_best_direction init_state3.grid init_state3.pos = none ∧
    ∀ k, run oracle3 init_state3 (k + 1) = none := by
  constructor
  · decide
  · intro k
    induction k with
    | zero => decide
    | succ m ih => rw [show m + 1 + 1 = (m + 1) + 1 from rfl, run, ih]

/-- C3: any direction returned by find_best_direction passed
check_valid_path at the current pose: the wall slot toward it is not
recorded Wall and the neighbouring cell slot is not recorded Pit, so a
recorded pit is never selected as a move target. -/
theorem C3_find_best_direction_safety (g : Grid) (p : Position) (r : Direction)
    (h : find_best_direction g p = some r) :
    check_valid_path g p r = true ∧ get_wall_in_direction g p r ≠ WALL ∧
      get_cell_in_direction g p r ≠ PIT := by
  obtain ⟨hvalid, _⟩ := find_best_direction_valid g p r h
  refine ⟨hvalid, ?_, ((check_valid_path_iff g p r).1 hvalid).2⟩
  rcases ((check_valid_path_iff g p r).1 hvalid).1 with h1 | h1 <;> simp [h1, WALL, NO_WALL]

/-- C3 witness: at the initial state of the reference run the chosen
direction is north, and it is indeed a valid, pit-free path. -/
theorem C3_find_best_direction_safety_witness :
    check_valid_path init_state.grid start_position .north = true ∧
      get_wall_in_direction init_state.grid start_position .north ≠ WALL ∧
      get_cell_in_direction init_state.grid start_position .north ≠ PIT :=
  C3_find_best_direction_safety init_state.grid start_position .north (by decide)

/-- Knowledge grid for the C5 counterexample: the initial reference grid
with a wall recorded to the north of the start cell and an open, recorded
cell to its east. -/
def grid9c : Grid :=
  mapSet (mapSet (mapSet init_state.grid 6 1 WALL) 7 2 NO_WALL) 7 3 CELL

/-- Pose for the C5 counterexample: the start cell facing north. -/
def pose9c : Position := ⟨1, 7, .north⟩

/-- C5 counterexample: east has a valid path from this pose, yet
find_best_direction fails (ValueError on an empty dict) because facing
north the pathfinding priority is (west, south, north, south) and never
enumerates east: having some valid direction at the pose does not
guarantee a result. -/
theorem C5_valid_direction_missed_counterexample :
    check_valid_path grid9c pose9c .east = true ∧
    find_best_direction grid9c pose9c = none := by
  constructor <;> decide

/-- C5 amended: whenever at least one direction enumerated by the
pathfinding priority has a valid path, find_best_direction returns, among
the enumerated valid directions, one whose neighbour attains the maximum
unexplored count, and of those the one occurring earliest in the priority
sequence (a stable maximum over the ordered candidate list, deterministic,
never random and never by distance). -/
theorem C5_stable_argmax (g : Grid) (p : Position)
    (h : ∃ d ∈ generate_direction_priority p .pathfinding, check_valid_path g p d = true) :
    ∃ r, find_best_direction g p = some r ∧ check_valid_path g p r = true ∧
      (∀ d ∈ generate_direction_priority p .pathfinding,
        check_valid_path g p d = true → score g p d ≤ score g p r) ∧
      (generate_direction_priority p .pathfinding).find?
        (fun d => check_valid_path g p d && score g p d == score g p r) = some r := by
  obtain ⟨d0, hd0, hv0⟩ := h
  have hne : (generate_direction_priority p .pathfinding).foldl (fbd_step g p) [] ≠ [] :=
    fold_ne_nil g p _ [] (Or.inr ⟨d0, hd0, hv0⟩)
  obtain ⟨M, hM⟩ := dict_max_key_isSome _ hne
  have hMkey := dict_max_key_mem _ _ hM
  have hMex : ∃ d ∈ generate_direction_priority p .pathfinding,
      check_valid_path g p d = true ∧ score g p d = M := by
    rcases (fold_keys g p _ [] M).1 hMkey with hA | hex
    · simp at hA
    · exact hex
  obtain ⟨dM, hdM, hvM, hsM⟩ := hMex
  have hfil : dM ∈ (generate_direction_priority p .pathfinding).filter
      (fun d => check_valid_path g p d && score g p d == M) :=
    List.mem_filter.2 ⟨hdM, by simp [hvM, hsM]⟩
  have hfeq := find_best_direction_eq g p M hM
  cases hf : (generate_direction_priority p .pathfinding).filter
      (fun d => check_valid_path g p d && score g p d == M) with
  | nil => rw [hf] at hfil; simp at hfil
  | cons a tl =>
      have hamem : a ∈ (generate_direction_priority p .pathfinding).filter
          (fun d => check_valid_path g p d && score g p d == M) := by
        rw [hf]; exact List.mem_cons_self _ _
      have hasplit := List.mem_filter.1 hamem
      have hab := hasplit.2
      simp only [Bool.and_eq_true, beq_iff_eq] at hab
      obtain ⟨hva, hsa⟩ := hab
      refine ⟨a, ?_, hva, ?_, ?_⟩
      · rw [hfeq, hf]; rfl
      · intro d hdmem hdv
        have hkey : score g p d ∈
            ((generate_direction_priority p .pathfinding).foldl (fbd_step g p) []).map
              Prod.fst :=
          (fold_keys g p _ [] (score g p d)).2 (Or.inr ⟨d, hdmem, hdv, rfl⟩)
        have := dict_max_key_ub _ _ hM _ hkey
        omega
      · simp only [hsa]
        rw [← head_of_filter, hf]
        rfl

/-- C5 witness: at the initial reference state the hypothesis holds (north
is enumerated and valid) and the conclusion is delivered. -/
theorem C5_stable_argmax_witness :
    ∃ r, find_best_direction init_state.grid start_position = some r ∧
      check_valid_path init_state.grid start_position r = true ∧
      (∀ d ∈ generate_direction_priority start_position .pathfinding,
        check_valid_path init_state.grid start_position d = true →
          score init_state.grid start_position d ≤ score init_state.grid start_position r) ∧
      (generate_direction_priority start_position .pathfinding).find?
        (fun d => check_valid_path init_state.grid start_position d &&
          score init_state.grid start_position d ==
            score init_state.grid start_position r) = some r :=
  C5_stable_argmax init_state.grid start_position ⟨.north, by decide, by decide⟩

/-- C6: for every state the exploration loop reaches from the initialised
knowledge grid (driven by any oracle that, like MiroSimulation, answers as
a function of the map slot ahead and does not report a pit in the starting
cell), every intersection slot (even/even doubled coordinates) holds the
intersection marker, and one further iteration, however it ends, keeps
every already-known slot at its exact value: no slot reverts to Unknown
and no recorded value is overwritten with a conflicting one. -/
theorem C6_knowledge_monotone (oracle : Oracle) (W P T : Int → Int → Bool)
    (hfac : FactoredOracle oracle W P T) (hstart : P 7 1 = false)
    (k : Nat) (s : MiroState) (hs : run oracle init_state k = some s) :
    Inv W P s ∧
      (∀ y : Nat, y < 9 → ∀ x : Nat, x < 9 → y % 2 = 0 → x % 2 = 0 →
        mapGet s.grid (y : Int) (x : Int) = Slot.sect) ∧
      ∀ s', (loop_step oracle s = StepRes.next s' ∨ loop_step oracle s = StepRes.goal s' ∨
          loop_step oracle s = StepRes.stuck s') →
        GridMono s.grid s'.grid ∧
          ∀ y : Nat, y < 9 → ∀ x : Nat, x < 9 → y % 2 = 0 → x % 2 = 0 →
            mapGet s'.grid (y : Int) (x : Int) = Slot.sect := by
  induction k generalizing s with
  | zero =>
      unfold run at hs
      injection hs with hs
      subst hs
      have hinv : Inv W P init_state := init_inv W P hstart
      refine ⟨hinv, sect_of_gridOK W P _ hinv.2, ?_⟩
      intro s' hc
      obtain ⟨hinv', hmono'⟩ := loop_step_inv oracle W P T hfac _ hinv s' hc
      exact ⟨hmono', sect_of_gridOK W P _ hinv'.2⟩
  | succ k ih =>
      unfold run at hs
      cases hrun : run oracle init_state k with
      | none =>
          rw [hrun] at hs
          cases hs
      | some s1 =>
          rw [hrun] at hs
          dsimp only at hs
          cases hstep : loop_step oracle s1 with
          | next s2 =>
              rw [hstep] at hs
              injection hs with hs
              subst hs
              obtain ⟨hinv1, _, _⟩ := ih s1 hrun
              obtain ⟨hinv2, _⟩ := loop_step_inv oracle W P T hfac s1 hinv1 s2 (Or.inl hstep)
              refine ⟨hinv2, sect_of_gridOK W P _ hinv2.2, ?_⟩
              intro s' hc
              obtain ⟨hinv', hmono'⟩ := loop_step_inv oracle W P T hfac _ hinv2 s' hc
              exact ⟨hmono', sect_of_gridOK W P _ hinv'.2⟩
          | goal s2 =>
              rw [hstep] at hs
              cases hs
          | stuck s2 =>
              rw [hstep] at hs
              cases hs

/-- C6 witness: with the reference simulation, after one loop iteration the
intersection slots still hold the marker. -/
theorem C6_knowledge_monotone_witness :
    mapGet miroS1.grid 6 0 = Slot.sect ∧ mapGet miroS1.grid 8 8 = Slot.sect := by
  have h := C6_knowledge_monotone oracle9 W9 P9 T9 oracle9_factored (by decide) 1 miroS1
    (by decide)
  exact ⟨by simpa using h.2.1 6 (by decide) 0 (by decide) (by decide) (by decide),
    by simpa using h.2.1 8 (by decide) 8 (by decide) (by decide) (by decide)⟩

/-- C7: whenever the scan phase finishes without the mid-scan goal break,
so that the loop goes on to call find_best_direction and move, every one of
the four directions is recorded at the pose where the move decision is
taken; when the goal is found mid-scan, loop_step ends in the goal state by
construction and the move phase is skipped. -/
theorem C7_scan_complete_before_move (oracle : Oracle) (W P T : Int → Int → Bool)
    (hfac : FactoredOracle oracle W P T) (s s' : MiroState) (hinv : Inv W P s)
    (hscan : scan_phase oracle s = ScanOut.next s') :
    ∀ d, direction_recorded s'.grid s'.pos d = true := by
  intro d
  unfold scan_phase at hscan
  obtain ⟨_, _, _, _, hrec⟩ := scan_list_next oracle W P T hfac _ s s' hinv hscan
  exact hrec d (Or.inl (scanning_covers s.pos d))

/-- C7 witness: after the first scan phase of the reference run all four
directions are recorded at the start cell. -/
theorem C7_scan_complete_before_move_witness :
    direction_recorded scanState9.grid scanState9.pos .north = true ∧
    direction_recorded scanState9.grid scanState9.pos .east = true ∧
    direction_recorded scanState9.grid scanState9.pos .south = true ∧
    direction_recorded scanState9.grid scanState9.pos .west = true := by
  have h := C7_scan_complete_before_move oracle9 W9 P9 T9 oracle9_factored init_state
    scanState9 (by decide) (by decide)
  exact ⟨h .north, h .east, h .south, h .west⟩

/-- C8: when no direction enumerated by the pathfinding priority has a
valid path, find_best_direction fails (the Python max of the empty
candidate dict raises ValueError, modelled as none) instead of returning a
direction; being a pure read of the grid and pose, the failed call leaves
both untouched. -/
theorem C8_stuck_returns_error (g : Grid) (p : Position)
    (h : ∀ d ∈ generate_direction_priority p .pathfinding, check_valid_path g p d = false) :
    find_best_direction g p = none := by
  unfold find_best_direction
  rw [foldl_no_valid g p _ [] h]
  rfl

/-- C8 witness: the one-by-one initial state has a recorded wall in every
enumerated direction and find_best_direction indeed fails there. -/
theorem C8_stuck_returns_error_witness :
    find_best_direction init_state3.grid init_state3.pos = none :=
  C8_stuck_returns_error init_state3.grid init_state3.pos (by decide)

/-- C9: turn_to_face reaches the target direction without moving, using
the minimal number of primitive 90 degree turns; a single
counter-clockwise step is one turn_left, a single clockwise step is one
turn_right, and a 180 degree difference is exactly two turn_left calls. -/
theorem C9_turn_to_face_minimal (p : Position) (t : Direction) :
    (turn_to_face p t).direction = t ∧
    (turn_to_face p t).x = p.x ∧ (turn_to_face p t).y = p.y ∧
    (turns_to_face p.direction t).length = rotationDistance p.direction t ∧
    turns_to_face p.direction (left_of p.direction) = [Turn.left] ∧
    turns_to_face p.direction (right_of p.direction) = [Turn.right] ∧
    turns_to_face p.direction (left_of (left_of p.direction)) = [Turn.left, Turn.left] ∧
    turns_to_face p.direction p.direction = [] := by
  obtain ⟨x, y, dir⟩ := p
  dsimp only
  refine ⟨?_, (apply_turns_coords _ _).1, (apply_turns_coords _ _).2, ?_, ?_, ?_, ?_, ?_⟩
  · rw [turn_to_face, apply_turns_direction]
    dsimp only
    cases dir <;> cases t <;> decide
  all_goals cases dir <;> cases t <;> decide

/-- C10: turning leaves the coordinates unchanged, and a forward or
backward move changes exactly one coordinate by exactly 2 (the cell-step
offset is (0, +-2) or (+-2, 0) for every direction), so both coordinate
parities are preserved and a pose with odd coordinates always designates a
cell slot. -/
theorem C10_pose_parity_invariant (p : Position) :
    (turn_left p).x = p.x ∧ (turn_left p).y = p.y ∧
    (turn_right p).x = p.x ∧ (turn_right p).y = p.y ∧
    (handle_direction .cells p.direction = ⟨0, -2⟩ ∨
      handle_direction .cells p.direction = ⟨0, 2⟩ ∨
      handle_direction .cells p.direction = ⟨2, 0⟩ ∨
      handle_direction .cells p.direction = ⟨-2, 0⟩) ∧
    (move_forward p).x = p.x + (handle_direction .cells p.direction).x ∧
    (move_forward p).y = p.y + (handle_direction .cells p.direction).y ∧
    (move_backward p).x = p.x - (handle_direction .cells p.direction).x ∧
    (move_backward p).y = p.y - (handle_direction .cells p.direction).y ∧
    (move_forward p).x % 2 = p.x % 2 ∧ (move_forward p).y % 2 = p.y % 2 ∧
    (move_backward p).x % 2 = p.x % 2 ∧ (move_backward p).y % 2 = p.y % 2 := by
  cases p with
  | mk x y dir =>
      cases dir <;>
        refine ⟨rfl, rfl, rfl, rfl, by simp [handle_direction], rfl, rfl, rfl, rfl,
          ?_, ?_, ?_, ?_⟩ <;>
        simp [move_forward, move_backward, handle_direction]

end Miro
